import Mathlib

/-!
Verification of the capability-based competitor discovery and keyword-mapping
pipeline of the seo-backend repository.  The Python source under
`src/backend/llm_client.py`, `src/agents/competitor_agent.py`,
`src/agents/competitive_analysis_agent.py` and `src/main.py` is shallowly
embedded below: pure string manipulation is translated to functions on
`String`/`List Char`, oracle (LLM) calls and the external markup
parser/extractor are inputs to the embedded functions, and fallible code
returns `Except`/`Option`.
-/

set_option maxRecDepth 100000

namespace SeoSpec

/-! ## String primitives modelling the Python operations used by the source

Python strings index by code point, which matches `String.data : List Char`,
so slicing, `len`, `lower`, `strip` and substring containment (`in`) are
modelled on the code-point list. -/

/-- Model of Python `needle in haystack` (contiguous substring test) on
code-point lists. -/
def containsSub (needle : List Char) : List Char → Bool
  | [] => needle.isEmpty
  | c :: rest => needle.isPrefixOf (c :: rest) || containsSub needle rest

/-- Model of Python `needle in haystack` on strings. -/
def containsSubStr (needle haystack : String) : Bool :=
  containsSub needle.data haystack.data

/-- Model of Python `str.lower()` (the source only lowercases ASCII data). -/
def pyLower (s : String) : String := ⟨s.data.map Char.toLower⟩

/-- Model of Python `str.strip()` on code-point lists: drop leading and
trailing whitespace. -/
def pyStripChars (l : List Char) : List Char :=
  ((l.dropWhile Char.isWhitespace).reverse.dropWhile Char.isWhitespace).reverse

/-- `keyword.lower().strip()` as computed by `_is_excluded_keyword` and by the
aggregation step of `get_competitor_keywords` (llm_client.py lines 90, 542). -/
def normKw (s : String) : List Char := pyStripChars (pyLower s).data

/-- Model of Python `s[:n]` for strings (Python slices by code point). -/
def pyTake (s : String) (n : Nat) : String := ⟨s.data.take n⟩

/-- Model of Python `len(s)`. -/
def pyLen (s : String) : Nat := s.data.length

/-- Model of Python `s.replace(' ', '+')` (single-character replacement is a
character map). -/
def plusify (s : String) : String :=
  ⟨s.data.map fun c => if c = ' ' then '+' else c⟩

/-- Python `a or d` for an optional integer field: `None` and `0` are falsy. -/
def pyOrNat (a : Option Nat) (d : Nat) : Nat :=
  match a with
  | none => d
  | some n => if n = 0 then d else n

/-- Python `a or d` for an optional rational field: `None` and `0` are falsy. -/
def pyOrQ (a : Option ℚ) (d : ℚ) : ℚ :=
  match a with
  | none => d
  | some q => if q = 0 then d else q

/-- Python `a or d` for an optional string field: `None` and `""` are falsy. -/
def pyOrStr (a : Option String) (d : String) : String :=
  match a with
  | none => d
  | some s => if s = "" then d else s

/-! ## The fixed exclusion list (llm_client.py lines 23-32) -/

/-- `EXCLUDED_PRODUCT_TERMS` from llm_client.py. -/
def EXCLUDED_PRODUCT_TERMS : List String :=
  ["adaptive form", "adaptive forms",
   "aem sites", "aem site",
   "aem forms", "aem form",
   "aem as a cloud service", "aem cloud service",
   "aem assets", "aem asset",
   "adobe experience manager",
   "experience manager",
   "aem"]

/-- `AzureOpenAIClient._is_excluded_keyword` (llm_client.py lines 88-94):
the keyword is lowercased and stripped, then each excluded term is tested
for substring containment. -/
def isExcludedKeyword (keyword : String) : Bool :=
  EXCLUDED_PRODUCT_TERMS.any fun term => containsSub term.data (normKw keyword)

/-- `AzureOpenAIClient._generate_semrush_url` (llm_client.py lines 84-86)
with `SEMRUSH_URL_TEMPLATE` from config.py. -/
def generateSemrushUrl (keyword : String) : String :=
  "https://www.semrush.com/analytics/keywordmagic/?q=" ++ plusify keyword ++ "&db=us"

/-! ## Static configuration (config.py) -/

/-- A competitor entry of `PRODUCT_COMPETITORS` (config.py): name and base URL. -/
structure Competitor where
  name : String
  url : String
deriving Repr, DecidableEq

/-- `PRODUCT_COMPETITORS` from config.py. -/
def PRODUCT_COMPETITORS : List (String × List Competitor) :=
  [("Assets",
    [⟨"Bynder", "https://www.bynder.com/"⟩,
     ⟨"Brandfolder", "https://brandfolder.com/"⟩,
     ⟨"Canto", "https://www.canto.com/"⟩,
     ⟨"Widen", "https://www.widen.com/"⟩]),
   ("Forms",
    [⟨"Typeform", "https://www.typeform.com/"⟩,
     ⟨"Jotform", "https://www.jotform.com/"⟩,
     ⟨"Formstack", "https://www.formstack.com/"⟩,
     ⟨"Wufoo", "https://www.wufoo.com/"⟩]),
   ("Sites",
    [⟨"Wix", "https://www.wix.com/"⟩,
     ⟨"Squarespace", "https://www.squarespace.com/"⟩,
     ⟨"Webflow", "https://webflow.com/"⟩,
     ⟨"WordPress", "https://wordpress.com/"⟩])]

/-- Model of `PRODUCT_COMPETITORS.get(product)`. -/
def lookupProduct (product : String) : Option (List Competitor) :=
  (PRODUCT_COMPETITORS.find? fun p => p.fst = product).map Prod.snd

/-! ## Time ranges and volume field selection -/

/-- `AzureOpenAIClient._get_volume_field_name` (llm_client.py lines 73-82):
maps the raw `time_range` string to a volume field name, raising for any
other value. -/
def volumeFieldName (time_range : String) : Except String String :=
  if time_range = "week" then .ok "weekly_volume"
  else if time_range = "year" then .ok "yearly_volume"
  else if time_range = "month" then .ok "monthly_volume"
  else .error ("Invalid time_range: " ++ time_range ++ ". Must be: week, month, or year")

/-- A validated time range (the three values `_get_volume_field_name` accepts). -/
inductive TimeRange where
  | week
  | month
  | year
deriving Repr, DecidableEq

/-! ## Data shapes flowing through `get_competitor_keywords` -/

/-- An input article keyword dict as read by `get_competitor_keywords`
(the fields it accesses: `keyword`, `search_volume`, `cpc`, `difficulty`).
A missing/None field is `none`; a missing `keyword` is the falsy `""`. -/
structure AKw where
  keyword : String
  search_volume : Option Nat
  cpc : Option ℚ
  difficulty : Option String
deriving Repr, DecidableEq

/-- The `competitor_keyword` object of one oracle response in
`find_competitor_keyword_for_article_keyword` (llm_client.py lines 397-408):
each field may be absent. -/
structure Ckw where
  keyword : String
  weekly_volume : Option Nat
  monthly_volume : Option Nat
  yearly_volume : Option Nat
  cpc : Option ℚ
  difficulty : Option String
  relevance_score : Option Nat
  found_in : Option String
deriving Repr, DecidableEq

/-- A parsed oracle response for one (article keyword, competitor) pair:
`none` for `competitor_keyword` models a missing or falsy value. -/
structure MapResp where
  competitor_keyword : Option Ckw
deriving Repr, DecidableEq

/-- One element of the `competitor_content` list passed to
`get_competitor_keywords` (the fields it reads). -/
structure CompContent where
  competitor_name : String
  content : String
  headings : List String
deriving Repr, DecidableEq

/-- `ckw.get(volume_field)`: the volume field selected by the time range. -/
def volByRange (c : Ckw) : TimeRange → Option Nat
  | .week => c.weekly_volume
  | .month => c.monthly_volume
  | .year => c.yearly_volume

/-- An accepted per-competitor term (llm_client.py lines 517-525). -/
structure Term where
  keyword : String
  competitor : String
  search_volume : Nat
  cpc : ℚ
  difficulty : String
  relevance_score : Nat
  found_in : String
deriving Repr, DecidableEq

/-- Building one accepted term (llm_client.py lines 511-525): missing or
falsy numeric fields fall through `or` chains — the selected volume field,
then `monthly_volume`, then `500`; cpc→`1.5`; difficulty→`"medium"`;
relevance→`7`; `found_in` defaults to `"content"` only when absent. -/
def mkTerm (tr : TimeRange) (compName : String) (c : Ckw) : Term :=
  { keyword := c.keyword
    competitor := compName
    search_volume := pyOrNat (volByRange c tr) (pyOrNat c.monthly_volume 500)
    cpc := pyOrQ c.cpc (3/2 : ℚ)
    difficulty := pyOrStr c.difficulty "medium"
    relevance_score := pyOrNat c.relevance_score 7
    found_in := c.found_in.getD "content" }

/-- The per-(article keyword) inner loop over competitors (llm_client.py
lines 488-530): competitors with empty content are skipped; a failed or
malformed oracle call (`none`) is skipped; a term is accepted only when its
text is nonempty and not excluded.  `oracle aIdx cIdx` is the parsed
response of the oracle call for article keyword number `aIdx` and
competitor number `cIdx`. -/
def collectTerms (oracle : Nat → Nat → Option MapResp) (tr : TimeRange)
    (aIdx : Nat) : Nat → List CompContent → List Term
  | _, [] => []
  | cIdx, comp :: rest =>
    let tail := collectTerms oracle tr aIdx (cIdx + 1) rest
    if comp.content = "" then tail
    else
      match oracle aIdx cIdx with
      | none => tail
      | some resp =>
        match resp.competitor_keyword with
        | none => tail
        | some ckw =>
          if ckw.keyword ≠ "" ∧ isExcludedKeyword ckw.keyword = false then
            mkTerm tr comp.competitor_name ckw :: tail
          else tail

/-- An aggregated competitor keyword (llm_client.py lines 551-560). -/
structure CompKw where
  keyword : String
  search_volume : Nat
  cpc : ℚ
  difficulty : String
  tool : String
  source : String
  used_by : List String
  semrush_url : String
deriving Repr, DecidableEq

/-- A fresh aggregated entry for a term (llm_client.py lines 551-560). -/
def mkCompKw (t : Term) : CompKw :=
  { keyword := t.keyword
    search_volume := t.search_volume
    cpc := t.cpc
    difficulty := t.difficulty
    tool := "Competitor Website Scraping"
    source := "Competitor Analysis"
    used_by := [t.competitor]
    semrush_url := generateSemrushUrl t.keyword }

/-- Inserting one term into the global `competitor_keywords_all` list
(llm_client.py lines 538-560): the first entry whose text matches
case-insensitively after trimming has the term's competitor appended to its
`used_by` (if not already present); otherwise a new entry is appended. -/
def insertCompTerm (t : Term) : List CompKw → List CompKw
  | [] => [mkCompKw t]
  | e :: es =>
    if normKw e.keyword = normKw t.keyword then
      (if t.competitor ∈ e.used_by then e
       else { e with used_by := e.used_by ++ [t.competitor] }) :: es
    else e :: insertCompTerm t es

/-- Folding a list of terms into the global aggregation (the
`for term in competitor_terms_for_keyword` loop, llm_client.py 538-560). -/
def aggregateTerms (init : List CompKw) (terms : List Term) : List CompKw :=
  terms.foldl (fun acc t => insertCompTerm t acc) init

/-- Stable insertion for a descending sort on a `Nat` key: the new element
goes before the first element whose key is not larger, so elements with
equal keys keep their original relative order — the semantics of Python's
stable `list.sort(key=…, reverse=True)`. -/
def insertDescBy (key : α → Nat) (x : α) : List α → List α
  | [] => [x]
  | y :: ys => if key y ≤ key x then x :: y :: ys else y :: insertDescBy key x ys

/-- Stable descending sort by a `Nat` key, modelling Python's
`list.sort(key=…, reverse=True)`. -/
def sortDescBy (key : α → Nat) : List α → List α
  | [] => []
  | x :: xs => insertDescBy key x (sortDescBy key xs)

/-- One keyword mapping (llm_client.py lines 563-569).  The stored article
volume is `akw.get('search_volume')` of the matching input keyword when one
is found, else the literal `0`. -/
structure Mapping where
  article_keyword_text : String
  article_keyword_volume : Option Nat
  competitor_keywords : List Term
deriving Repr, DecidableEq

/-- `article_kw_data` lookup (llm_client.py lines 479-483): first input
keyword equal case-insensitively to the mapped text. -/
def findArticleData (articleKws : List AKw) (text : String) : Option AKw :=
  articleKws.find? fun a => pyLower a.keyword = pyLower text

/-- The main mapping loop of `get_competitor_keywords` (llm_client.py lines
475-571), returning the accumulated mappings and the aggregated global
competitor keyword list.  Article keywords with no accepted competitor term
contribute nothing. -/
def mainLoop (oracle : Nat → Nat → Option MapResp) (tr : TimeRange)
    (articleKws : List AKw) (ccs : List CompContent) :
    Nat → List String → List Mapping × List CompKw → List Mapping × List CompKw
  | _, [], st => st
  | aIdx, ak :: rest, (maps, agg) =>
    let terms := collectTerms oracle tr aIdx 0 ccs
    if terms = [] then mainLoop oracle tr articleKws ccs (aIdx + 1) rest (maps, agg)
    else
      let sorted := sortDescBy Term.search_volume terms
      let agg' := aggregateTerms agg sorted
      let artVol : Option Nat :=
        match findArticleData articleKws ak with
        | some a => a.search_volume
        | none => some 0
      mainLoop oracle tr articleKws ccs (aIdx + 1) rest
        (maps ++ [⟨ak, artVol, sorted⟩], agg')

/-- A cleaned article keyword (llm_client.py lines 584-595). -/
structure CleanKw where
  keyword : String
  search_volume : Option Nat
  cpc : Option ℚ
  difficulty : Option String
  tool : String
  source : String
  semrush_url : String
deriving Repr, DecidableEq

/-- Cleaning one input article keyword (llm_client.py lines 586-595). -/
def mkCleanKw (a : AKw) : CleanKw :=
  { keyword := a.keyword
    search_volume := a.search_volume
    cpc := a.cpc
    difficulty := a.difficulty
    tool := "Azure OpenAI + Web Scraping"
    source := "Article Content Analysis"
    semrush_url := generateSemrushUrl a.keyword }

/-- `article_keywords_clean` (llm_client.py lines 583-595): the first five
input keywords with a truthy text that is not excluded. -/
def cleanArticleKeywords (articleKws : List AKw) : List CleanKw :=
  (articleKws.take 5).filterMap fun a =>
    if a.keyword ≠ "" ∧ isExcludedKeyword a.keyword = false then some (mkCleanKw a)
    else none

/-- An entry of the suggestion pool `all_keywords_for_suggestion`
(llm_client.py lines 598-615). -/
structure SugKw where
  keyword : String
  search_volume : Option Nat
  cpc : Option ℚ
  difficulty : Option String
  tool : String
  source : String
  used_by : List String
  relevance_score : Nat
  semrush_url : String
deriving Repr, DecidableEq

/-- Pool entry made from a cleaned article keyword (llm_client.py 601-607):
`used_by` is empty and the relevance weight is 10. -/
def sugOfClean (a : CleanKw) : SugKw :=
  { keyword := a.keyword
    search_volume := a.search_volume
    cpc := a.cpc
    difficulty := a.difficulty
    tool := a.tool
    source := a.source
    used_by := []
    relevance_score := 10
    semrush_url := a.semrush_url }

/-- Pool entry made from an aggregated competitor keyword
(llm_client.py 610-615): the relevance weight is 8. -/
def sugOfComp (c : CompKw) : SugKw :=
  { keyword := c.keyword
    search_volume := some c.search_volume
    cpc := some c.cpc
    difficulty := some c.difficulty
    tool := c.tool
    source := c.source
    used_by := c.used_by
    relevance_score := 8
    semrush_url := c.semrush_url }

/-- The suggestion pool: cleaned article keywords whose volume is present,
concatenated before the aggregated competitor keywords whose volume is
present (llm_client.py lines 598-615; a `CompKw` volume is always a set
integer, so its `is not None` test always passes). -/
def suggestionPool (articleClean : List CleanKw) (compAll : List CompKw) : List SugKw :=
  (articleClean.filterMap fun a =>
    if a.search_volume ≠ none then some (sugOfClean a) else none) ++
  (compAll.filterMap fun c =>
    if (sugOfComp c).search_volume ≠ none then some (sugOfComp c) else none)

/-- An output suggested keyword (llm_client.py lines 629-638). -/
structure SuggestedKw where
  keyword : String
  search_volume : Option Nat
  cpc : Option ℚ
  difficulty : Option String
  tool : String
  source : String
  used_by : List String
  semrush_url : String
deriving Repr, DecidableEq

/-- The output row built from a pool entry (llm_client.py lines 629-638). -/
def mkSuggested (kw : SugKw) : SuggestedKw :=
  { keyword := kw.keyword
    search_volume := kw.search_volume
    cpc := kw.cpc
    difficulty := kw.difficulty
    tool := kw.tool
    source := "Highest Volume"
    used_by := kw.used_by
    semrush_url := kw.semrush_url }

/-- The sort key of the suggestion sort: `x.get('search_volume') or 0`
(llm_client.py lines 618-621). -/
def sugKey (kw : SugKw) : Nat := kw.search_volume.getD 0

/-- The dedup-and-cap loop over the sorted pool (llm_client.py lines
623-641): entries with an empty or already-seen lowercased text are
skipped, and the loop breaks once five outputs are collected (the break is
checked at the bottom of every iteration). -/
def pickSuggested (seen : List String) (acc : List SuggestedKw) :
    List SugKw → List SuggestedKw
  | [] => acc
  | kw :: rest =>
    let t := pyLower kw.keyword
    let seen' := if t ≠ "" ∧ t ∉ seen then t :: seen else seen
    let acc' := if t ≠ "" ∧ t ∉ seen then acc ++ [mkSuggested kw] else acc
    if 5 ≤ acc'.length then acc' else pickSuggested seen' acc' rest

/-- `suggested_keywords` (llm_client.py lines 597-641): build the pool,
stable-sort it by descending volume, then deduplicate and cap at five. -/
def buildSuggested (articleClean : List CleanKw) (compAll : List CompKw) :
    List SuggestedKw :=
  pickSuggested [] [] (sortDescBy sugKey (suggestionPool articleClean compAll))

/-- The result record of `get_competitor_keywords` (llm_client.py 653-658). -/
structure KeywordData where
  article_keywords : List CleanKw
  competitor_keywords : List CompKw
  suggested_keywords : List SuggestedKw
  keyword_mappings : List Mapping
deriving Repr, DecidableEq

/-- `AzureOpenAIClient.get_competitor_keywords` (llm_client.py lines
426-658).  The oracle (one call per article keyword × competitor pair,
`find_competitor_keyword_for_article_keyword`) is an input; a `none`
response covers a thrown or unparseable call.  The three guard clauses
raise as in the source. -/
def getCompetitorKeywords (oracle : Nat → Nat → Option MapResp)
    (articleKws : List AKw) (product : String) (tr : TimeRange)
    (competitorContent : List CompContent) : Except String KeywordData :=
  match lookupProduct product with
  | none => .error ("No competitors configured for product: " ++ product)
  | some _ =>
    let articleKwList := articleKws.filterMap fun kw =>
      if kw.keyword ≠ "" then some kw.keyword else none
    if articleKwList = [] then
      .error "No article keywords provided for competitor analysis"
    else if competitorContent = [] then
      .error "No competitor content provided - competitor websites must be scraped first"
    else
      let articleKwList5 := articleKwList.take 5
      let ccs := competitorContent.take 2
      let (mappings, compAll) := mainLoop oracle tr articleKws ccs 0 articleKwList5 ([], [])
      let articleClean := cleanArticleKeywords articleKws
      .ok { article_keywords := articleClean
            competitor_keywords := compAll
            suggested_keywords := buildSuggested articleClean compAll
            keyword_mappings := mappings }

/-! ## Lemmas about the stable descending sort -/

theorem mem_insertDescBy (key : α → Nat) (x z : α) :
    ∀ m : List α, z ∈ insertDescBy key x m ↔ z = x ∨ z ∈ m := by
  intro m
  induction m with
  | nil => simp [insertDescBy]
  | cons y ys ih =>
    by_cases h : key y ≤ key x
    · simp [insertDescBy, h]
    · simp only [insertDescBy, if_neg h, List.mem_cons, ih]
      tauto

theorem mem_sortDescBy (key : α → Nat) (z : α) :
    ∀ l : List α, z ∈ sortDescBy key l ↔ z ∈ l := by
  intro l
  induction l with
  | nil => simp [sortDescBy]
  | cons x xs ih => simp [sortDescBy, mem_insertDescBy, ih]

theorem pairwise_insertDescBy (key : α → Nat) (x : α) :
    ∀ m : List α, m.Pairwise (fun a b => key b ≤ key a) →
      (insertDescBy key x m).Pairwise (fun a b => key b ≤ key a) := by
  intro m
  induction m with
  | nil => simp [insertDescBy]
  | cons y ys ih =>
    intro h
    rcases List.pairwise_cons.mp h with ⟨hy, hys⟩
    by_cases hle : key y ≤ key x
    · simp only [insertDescBy, if_pos hle]
      refine List.pairwise_cons.mpr ⟨?_, h⟩
      intro z hz
      rcases List.mem_cons.mp hz with rfl | hz'
      · exact hle
      · exact le_trans (hy z hz') hle
    · simp only [insertDescBy, if_neg hle]
      refine List.pairwise_cons.mpr ⟨?_, ih hys⟩
      intro z hz
      rcases (mem_insertDescBy key x z ys).mp hz with rfl | hz'
      · exact le_of_lt (lt_of_not_le hle)
      · exact hy z hz'

theorem pairwise_sortDescBy (key : α → Nat) :
    ∀ l : List α, (sortDescBy key l).Pairwise (fun a b => key b ≤ key a) := by
  intro l
  induction l with
  | nil => simp [sortDescBy]
  | cons x xs ih => exact pairwise_insertDescBy key x _ ih

theorem filter_insertDescBy (key : α → Nat) (p : α → Bool)
    (hp : ∀ a b, p a = true → p b = true → key a = key b) (x : α) :
    ∀ m : List α,
      (insertDescBy key x m).filter p =
        if p x then x :: m.filter p else m.filter p := by
  intro m
  induction m with
  | nil =>
    cases hx : p x <;> simp [insertDescBy, List.filter, hx]
  | cons y ys ih =>
    by_cases hle : key y ≤ key x
    · simp only [insertDescBy, if_pos hle]
      cases hx : p x <;> simp [List.filter_cons, hx]
    · simp only [insertDescBy, if_neg hle]
      cases hx : p x with
      | true =>
        have hy : ¬ p y = true := by
          intro hy
          exact hle (le_of_eq (hp y x hy hx))
        simp [List.filter_cons, hx, hy, ih]
      | false =>
        simp [List.filter_cons, hx, ih]

theorem filter_sortDescBy (key : α → Nat) (p : α → Bool)
    (hp : ∀ a b, p a = true → p b = true → key a = key b) :
    ∀ l : List α, (sortDescBy key l).filter p = l.filter p := by
  intro l
  induction l with
  | nil => rfl
  | cons x xs ih =>
    simp only [sortDescBy, filter_insertDescBy key p hp, ih, List.filter_cons]

/-! ## The dedup-and-cap loop, rephrased -/

/-- First-occurrence deduplication of the sorted pool keyed by the
lowercased text, skipping entries with empty text: the list of pool entries
`pickSuggested` keeps, before the cap of five is applied. -/
def dedupPick (seen : List String) : List SugKw → List SugKw
  | [] => []
  | kw :: rest =>
    let t := pyLower kw.keyword
    if t ≠ "" ∧ t ∉ seen then kw :: dedupPick (t :: seen) rest
    else dedupPick seen rest

theorem pickSuggested_eq :
    ∀ (l : List SugKw) (seen : List String) (acc : List SuggestedKw),
      acc.length < 5 →
      pickSuggested seen acc l =
        acc ++ ((dedupPick seen l).take (5 - acc.length)).map mkSuggested := by
  intro l
  induction l with
  | nil => intro seen acc _; simp [pickSuggested, dedupPick]
  | cons kw rest ih =>
    intro seen acc hacc
    by_cases hc : pyLower kw.keyword ≠ "" ∧ pyLower kw.keyword ∉ seen
    · simp only [pickSuggested, dedupPick, if_pos hc]
      by_cases hfull : 5 ≤ (acc ++ [mkSuggested kw]).length
      · have hlen : acc.length = 4 := by
          simp only [List.length_append, List.length_cons, List.length_nil] at hfull
          omega
        simp only [if_pos hfull]
        have : 5 - acc.length = 1 := by omega
        simp [this, List.take_succ_cons]
      · have hlen : (acc ++ [mkSuggested kw]).length < 5 := lt_of_not_le hfull
        simp only [if_neg hfull]
        rw [ih _ _ hlen]
        have h1 : (acc ++ [mkSuggested kw]).length = acc.length + 1 := by simp
        have h2 : 5 - acc.length = (5 - (acc.length + 1)) + 1 := by omega
        simp [h1, h2, List.take_succ_cons]
    · simp only [pickSuggested, dedupPick, if_neg hc]
      have : ¬ 5 ≤ acc.length := not_le_of_lt hacc
      simp only [if_neg this]
      exact ih seen acc hacc

/-- `buildSuggested` in closed form: stable descending sort of the pool,
first-occurrence dedup by lowercased text, cap at five. -/
theorem buildSuggested_eq (articleClean : List CleanKw) (compAll : List CompKw) :
    buildSuggested articleClean compAll =
      ((dedupPick []
          (sortDescBy sugKey (suggestionPool articleClean compAll))).take 5).map
        mkSuggested := by
  unfold buildSuggested
  rw [pickSuggested_eq _ [] [] (by simp)]
  simp

theorem dedupPick_sublist :
    ∀ (l : List SugKw) (seen : List String), List.Sublist (dedupPick seen l) l := by
  intro l
  induction l with
  | nil => intro seen; simp [dedupPick]
  | cons kw rest ih =>
    intro seen
    by_cases hc : pyLower kw.keyword ≠ "" ∧ pyLower kw.keyword ∉ seen
    · simpa [dedupPick, hc] using List.Sublist.cons₂ kw (ih (pyLower kw.keyword :: seen))
    · simpa [dedupPick, hc] using List.Sublist.cons kw (ih seen)

theorem dedupPick_not_seen :
    ∀ (l : List SugKw) (seen : List String),
      ∀ e ∈ dedupPick seen l, pyLower e.keyword ∉ seen := by
  intro l
  induction l with
  | nil => intro seen e he; simp [dedupPick] at he
  | cons kw rest ih =>
    intro seen e he
    by_cases hc : pyLower kw.keyword ≠ "" ∧ pyLower kw.keyword ∉ seen
    · simp only [dedupPick, if_pos hc] at he
      rcases List.mem_cons.mp he with rfl | he'
      · exact hc.2
      · intro hmem
        exact ih _ e he' (List.mem_cons_of_mem _ hmem)
    · simp only [dedupPick, if_neg hc] at he
      exact ih seen e he

theorem dedupPick_pairwise_ne :
    ∀ (l : List SugKw) (seen : List String),
      (dedupPick seen l).Pairwise
        (fun a b => pyLower a.keyword ≠ pyLower b.keyword) := by
  intro l
  induction l with
  | nil => intro seen; simp [dedupPick]
  | cons kw rest ih =>
    intro seen
    by_cases hc : pyLower kw.keyword ≠ "" ∧ pyLower kw.keyword ∉ seen
    · simp only [dedupPick, if_pos hc]
      refine List.pairwise_cons.mpr ⟨?_, ih _⟩
      intro b hb heq
      exact dedupPick_not_seen rest _ b hb (heq ▸ List.mem_cons_self _ _)
    · simp only [dedupPick, if_neg hc]
      exact ih seen

theorem mem_suggestionPool_volume (articleClean : List CleanKw)
    (compAll : List CompKw) :
    ∀ e ∈ suggestionPool articleClean compAll, e.search_volume ≠ none := by
  intro e he
  rcases List.mem_append.mp he with h | h
  · rcases List.mem_filterMap.mp h with ⟨a, _, ha⟩
    by_cases hv : a.search_volume ≠ none
    · simp only [if_pos hv] at ha
      cases ha
      simpa [sugOfClean] using hv
    · simp [if_neg hv] at ha
  · rcases List.mem_filterMap.mp h with ⟨c, _, hc⟩
    have : (sugOfComp c).search_volume ≠ none := by simp [sugOfComp]
    simp only [if_pos this] at hc
    cases hc
    exact this

/-- C1: the suggestion ranker's output is sorted by non-increasing
search_volume, has length at most 5, contains no two entries with
case-insensitive-equal keyword text (first occurrence kept, expressed by
the closed form over the first-occurrence dedup), and excludes every pooled
entry whose search_volume is absent; the pool is the cleaned article
keywords concatenated before the merged competitor keywords
(`suggestionPool`), and ties preserve that pool order: restricting the
output to any single volume value yields a sublist of the pool so
restricted (stable sort). -/
theorem c1_suggested_keywords_ranking (articleClean : List CleanKw)
    (compAll : List CompKw) :
    let out := buildSuggested articleClean compAll
    let pool := suggestionPool articleClean compAll
    out = ((dedupPick [] (sortDescBy sugKey pool)).take 5).map mkSuggested ∧
    out.length ≤ 5 ∧
    out.Pairwise (fun a b => b.search_volume.getD 0 ≤ a.search_volume.getD 0) ∧
    out.Pairwise (fun a b => pyLower a.keyword ≠ pyLower b.keyword) ∧
    (∀ e ∈ out, e.search_volume ≠ none) ∧
    (∀ v : Nat,
      List.Sublist
        ((out.filter (fun e => e.search_volume = some v)).map
          (fun e => (e.keyword, e.search_volume)))
        ((pool.filter (fun e => e.search_volume = some v)).map
          (fun e => (e.keyword, e.search_volume)))) := by
  intro out pool
  have heq : out = ((dedupPick [] (sortDescBy sugKey pool)).take 5).map mkSuggested :=
    buildSuggested_eq articleClean compAll
  have hsub1 : List.Sublist ((dedupPick [] (sortDescBy sugKey pool)).take 5)
      (dedupPick [] (sortDescBy sugKey pool)) := List.take_sublist _ _
  have hsub2 : List.Sublist (dedupPick [] (sortDescBy sugKey pool))
      (sortDescBy sugKey pool) := dedupPick_sublist _ _
  have hsub : List.Sublist ((dedupPick [] (sortDescBy sugKey pool)).take 5)
      (sortDescBy sugKey pool) := hsub1.trans hsub2
  refine ⟨heq, ?_, ?_, ?_, ?_, ?_⟩
  · rw [heq]
    simp [List.length_take_le]
  · rw [heq]
    have hsorted := pairwise_sortDescBy sugKey pool
    have := List.Pairwise.sublist hsub hsorted
    exact this.map _ (fun a b h => by simpa [mkSuggested, sugKey] using h)
  · rw [heq]
    have := List.Pairwise.sublist hsub1
      (dedupPick_pairwise_ne (sortDescBy sugKey pool) [])
    exact this.map _ (fun a b h => by simpa [mkSuggested] using h)
  · rw [heq]
    intro e he
    rcases List.mem_map.mp he with ⟨kw, hkw, rfl⟩
    have hkwpool : kw ∈ pool :=
      (mem_sortDescBy sugKey kw pool).mp (hsub.subset hkw)
    have := mem_suggestionPool_volume articleClean compAll kw hkwpool
    simpa [mkSuggested] using this
  · intro v
    rw [heq]
    have hfm : (((dedupPick [] (sortDescBy sugKey pool)).take 5).map
          mkSuggested).filter (fun e => e.search_volume = some v) =
        (((dedupPick [] (sortDescBy sugKey pool)).take 5).filter
          (fun kw => kw.search_volume = some v)).map mkSuggested := by
      rw [List.filter_map]
      rfl
    rw [hfm, List.map_map]
    have hstable : (sortDescBy sugKey pool).filter
        (fun kw => kw.search_volume = some v) =
        pool.filter (fun kw => kw.search_volume = some v) := by
      apply filter_sortDescBy
      intro a b ha hb
      simp only [decide_eq_true_eq] at ha hb
      simp [sugKey, ha, hb]
    have hsubf : List.Sublist
        (((dedupPick [] (sortDescBy sugKey pool)).take 5).filter
          (fun kw => kw.search_volume = some v))
        (pool.filter (fun kw => kw.search_volume = some v)) := by
      rw [← hstable]
      exact hsub.filter _
    have := hsubf.map (fun kw : SugKw => (kw.keyword, kw.search_volume))
    simpa [Function.comp, mkSuggested] using this

/-! ## Lemmas about the global aggregation of competitor terms -/

/-- Every entry of `insertCompTerm t acc` either carries the text of an
entry of `acc` (entries are only modified in their `used_by`) or the text
of `t` (the freshly appended entry). -/
theorem insertCompTerm_keyword :
    ∀ (acc : List CompKw) (t : Term) (e : CompKw), e ∈ insertCompTerm t acc →
      e.keyword = t.keyword ∨ ∃ g ∈ acc, e.keyword = g.keyword := by
  intro acc
  induction acc with
  | nil =>
    intro t e he
    simp only [insertCompTerm, List.mem_singleton] at he
    subst he
    exact Or.inl rfl
  | cons g gs ih =>
    intro t e he
    by_cases hm : normKw g.keyword = normKw t.keyword
    · simp only [insertCompTerm, if_pos hm] at he
      rcases List.mem_cons.mp he with rfl | he'
      · by_cases hu : t.competitor ∈ g.used_by <;>
          simp only [if_pos, if_neg, hu] <;>
          exact Or.inr ⟨g, List.mem_cons_self g gs, by simp [hu]⟩
      · exact Or.inr ⟨e, List.mem_cons_of_mem g he', rfl⟩
    · simp only [insertCompTerm, if_neg hm] at he
      rcases List.mem_cons.mp he with rfl | he'
      · exact Or.inr ⟨e, List.mem_cons_self e gs, rfl⟩
      · rcases ih t e he' with h | ⟨g', hg', h⟩
        · exact Or.inl h
        · exact Or.inr ⟨g', List.mem_cons_of_mem g hg', h⟩

/-- Inserting a term preserves pairwise distinctness of the trimmed
lowercased texts. -/
theorem insertCompTerm_pairwise (t : Term) :
    ∀ acc : List CompKw,
      acc.Pairwise (fun a b => normKw a.keyword ≠ normKw b.keyword) →
      (insertCompTerm t acc).Pairwise
        (fun a b => normKw a.keyword ≠ normKw b.keyword) := by
  intro acc
  induction acc with
  | nil => intro _; simp [insertCompTerm]
  | cons g gs ih =>
    intro h
    rcases List.pairwise_cons.mp h with ⟨hg, hgs⟩
    by_cases hm : normKw g.keyword = normKw t.keyword
    · simp only [insertCompTerm, if_pos hm]
      refine List.pairwise_cons.mpr ⟨?_, hgs⟩
      intro b hb
      by_cases hu : t.competitor ∈ g.used_by <;> simp only [if_pos, if_neg, hu] <;>
        simpa using hg b hb
    · simp only [insertCompTerm, if_neg hm]
      refine List.pairwise_cons.mpr ⟨?_, ih hgs⟩
      intro b hb
      rcases insertCompTerm_keyword gs t b hb with hb' | ⟨g', hg', hb'⟩
      · rw [hb']
        exact hm
      · rw [hb']
        exact hg g' hg'

/-- If some entry of `acc` carries text `n` (normalised) and competitor `c`
in its `used_by`, this is preserved by any insertion. -/
theorem insertCompTerm_preserves (t : Term) (n : List Char) (c : String) :
    ∀ acc : List CompKw,
      (∃ e ∈ acc, normKw e.keyword = n ∧ c ∈ e.used_by) →
      ∃ e ∈ insertCompTerm t acc, normKw e.keyword = n ∧ c ∈ e.used_by := by
  intro acc
  induction acc with
  | nil => intro ⟨e, he, _⟩; exact absurd he (List.not_mem_nil e)
  | cons g gs ih =>
    intro ⟨e, he, hn, hc⟩
    by_cases hm : normKw g.keyword = normKw t.keyword
    · simp only [insertCompTerm, if_pos hm]
      rcases List.mem_cons.mp he with rfl | he'
      · by_cases hu : t.competitor ∈ e.used_by
        · exact ⟨e, by simp [hu], hn, hc⟩
        · refine ⟨{ e with used_by := e.used_by ++ [t.competitor] }, by simp [hu], hn, ?_⟩
          simp [hc]
      · exact ⟨e, by
          by_cases hu : t.competitor ∈ g.used_by <;>
            simp [hu, List.mem_cons_of_mem, he'], hn, hc⟩
    · simp only [insertCompTerm, if_neg hm]
      rcases List.mem_cons.mp he with rfl | he'
      · exact ⟨e, List.mem_cons_self _ _, hn, hc⟩
      · rcases ih ⟨e, he', hn, hc⟩ with ⟨e', he'', hn', hc'⟩
        exact ⟨e', List.mem_cons_of_mem g he'', hn', hc'⟩

/-- After inserting `t`, some entry carries `t`'s normalised text and has
`t.competitor` in its `used_by`. -/
theorem insertCompTerm_adds (t : Term) :
    ∀ acc : List CompKw,
      ∃ e ∈ insertCompTerm t acc,
        normKw e.keyword = normKw t.keyword ∧ t.competitor ∈ e.used_by := by
  intro acc
  induction acc with
  | nil => exact ⟨mkCompKw t, by simp [insertCompTerm], rfl, by simp [mkCompKw]⟩
  | cons g gs ih =>
    by_cases hm : normKw g.keyword = normKw t.keyword
    · simp only [insertCompTerm, if_pos hm]
      by_cases hu : t.competitor ∈ g.used_by
      · exact ⟨g, by simp [hu], hm, hu⟩
      · exact ⟨{ g with used_by := g.used_by ++ [t.competitor] }, by simp [hu], hm, by simp⟩
    · simp only [insertCompTerm, if_neg hm]
      rcases ih with ⟨e, he, hn, hc⟩
      exact ⟨e, List.mem_cons_of_mem g he, hn, hc⟩

theorem aggregateTerms_pairwise :
    ∀ (terms : List Term) (init : List CompKw),
      init.Pairwise (fun a b => normKw a.keyword ≠ normKw b.keyword) →
      (aggregateTerms init terms).Pairwise
        (fun a b => normKw a.keyword ≠ normKw b.keyword) := by
  intro terms
  induction terms with
  | nil => intro init h; exact h
  | cons t ts ih =>
    intro init h
    exact ih (insertCompTerm t init) (insertCompTerm_pairwise t init h)

theorem aggregateTerms_preserves (n : List Char) (c : String) :
    ∀ (terms : List Term) (init : List CompKw),
      (∃ e ∈ init, normKw e.keyword = n ∧ c ∈ e.used_by) →
      ∃ e ∈ aggregateTerms init terms, normKw e.keyword = n ∧ c ∈ e.used_by := by
  intro terms
  induction terms with
  | nil => intro init h; exact h
  | cons t ts ih =>
    intro init h
    exact ih (insertCompTerm t init) (insertCompTerm_preserves t n c init h)

/-- Every processed term ends up represented in the aggregation: some entry
carries its normalised text and its competitor. -/
theorem aggregateTerms_covers :
    ∀ (terms : List Term) (init : List CompKw) (t : Term), t ∈ terms →
      ∃ e ∈ aggregateTerms init terms,
        normKw e.keyword = normKw t.keyword ∧ t.competitor ∈ e.used_by := by
  intro terms
  induction terms with
  | nil => intro init t ht; exact absurd ht (List.not_mem_nil t)
  | cons u us ih =>
    intro init t ht
    rcases List.mem_cons.mp ht with rfl | ht'
    · exact aggregateTerms_preserves _ _ us (insertCompTerm t init)
        (insertCompTerm_adds t init)
    · exact ih (insertCompTerm u init) t ht'

/-- The aggregated list produced by the main mapping loop keeps pairwise
distinct normalised texts. -/
theorem mainLoop_pairwise (oracle : Nat → Nat → Option MapResp) (tr : TimeRange)
    (articleKws : List AKw) (ccs : List CompContent) :
    ∀ (aks : List String) (aIdx : Nat) (maps : List Mapping) (agg : List CompKw),
      agg.Pairwise (fun a b => normKw a.keyword ≠ normKw b.keyword) →
      (mainLoop oracle tr articleKws ccs aIdx aks (maps, agg)).2.Pairwise
        (fun a b => normKw a.keyword ≠ normKw b.keyword) := by
  intro aks
  induction aks with
  | nil => intro aIdx maps agg h; exact h
  | cons ak rest ih =>
    intro aIdx maps agg h
    by_cases ht : collectTerms oracle tr aIdx 0 ccs = []
    · simpa [mainLoop, ht] using ih (aIdx + 1) maps agg h
    · simpa [mainLoop, ht] using
        ih (aIdx + 1) _ _ (aggregateTerms_pairwise _ agg h)

/-- C2: in the keyword mapper's global aggregation, two terms with the same
case-insensitive trimmed text reported by two different competitors produce
exactly one aggregated entry whose `used_by` contains both competitor
names; and the whole pipeline's `competitor_keywords` output has pairwise
distinct case-insensitive trimmed texts (duplicates are merged by unioning
`used_by`, never kept as separate entries). -/
theorem c2_aggregation_merges_terms :
    (∀ (t1 t2 : Term), normKw t1.keyword = normKw t2.keyword →
      t1.competitor ≠ t2.competitor →
      aggregateTerms [] [t1, t2] =
        [{ mkCompKw t1 with used_by := [t1.competitor, t2.competitor] }] ∧
      ∃ e ∈ aggregateTerms [] [t1, t2],
        t1.competitor ∈ e.used_by ∧ t2.competitor ∈ e.used_by) ∧
    (∀ (oracle : Nat → Nat → Option MapResp) (articleKws : List AKw)
      (product : String) (tr : TimeRange) (cc : List CompContent)
      (out : KeywordData),
      getCompetitorKeywords oracle articleKws product tr cc = .ok out →
      out.competitor_keywords.Pairwise
        (fun a b => normKw a.keyword ≠ normKw b.keyword)) := by
  constructor
  · intro t1 t2 heq hne
    have h1 : aggregateTerms [] [t1, t2] =
        [{ mkCompKw t1 with used_by := [t1.competitor, t2.competitor] }] := by
      simp [aggregateTerms, insertCompTerm, mkCompKw, heq, hne, Ne.symm hne]
    refine ⟨h1, ?_⟩
    rw [h1]
    exact ⟨_, List.mem_singleton_self _, by simp, by simp⟩
  · intro oracle articleKws product tr cc out hok
    unfold getCompetitorKeywords at hok
    cases hlp : lookupProduct product with
    | none => rw [hlp] at hok; exact absurd hok (by simp)
    | some comps =>
      rw [hlp] at hok
      simp only at hok
      by_cases h1 : articleKws.filterMap (fun kw =>
          if kw.keyword ≠ "" then some kw.keyword else none) = []
      · rw [if_pos h1] at hok; exact absurd hok (by simp)
      · rw [if_neg h1] at hok
        by_cases h2 : cc = []
        · rw [if_pos h2] at hok; exact absurd hok (by simp)
        · rw [if_neg h2] at hok
          simp only [Except.ok.injEq] at hok
          subst hok
          exact mainLoop_pairwise oracle tr articleKws (cc.take 2) _ 0 [] []
            (List.Pairwise.nil)

/-! ## Concrete sample inputs used by witnesses -/

/-- A sample oracle `competitor_keyword` answer whose selected volume field
may be absent (only `monthly_volume` is present). -/
def sampleCkwA : Ckw :=
  { keyword := "spam protection", weekly_volume := none, monthly_volume := some 2000
    yearly_volume := none, cpc := none, difficulty := none, relevance_score := none
    found_in := none }

/-- A second sample answer, same text up to case, from another competitor. -/
def sampleCkwB : Ckw :=
  { keyword := "Spam Protection", weekly_volume := none, monthly_volume := some 1000
    yearly_volume := none, cpc := some 2, difficulty := some "low"
    relevance_score := some 9, found_in := some "heading" }

/-- A sample oracle: article keyword 0 gets `sampleCkwA` from competitor 0
and `sampleCkwB` from competitor 1; all other calls fail. -/
def sampleOracle : Nat → Nat → Option MapResp := fun a c =>
  if a = 0 ∧ c = 0 then some ⟨some sampleCkwA⟩
  else if a = 0 ∧ c = 1 then some ⟨some sampleCkwB⟩
  else none

/-- One sample article keyword. -/
def sampleAKws : List AKw := [⟨"reCAPTCHA", some 900, some 2, some "high"⟩]

/-- Two sample competitors with scraped content. -/
def sampleCC : List CompContent :=
  [⟨"Typeform", "typeform body text", ["Spam protection"]⟩,
   ⟨"Jotform", "jotform body text", []⟩]

/-- The empty result record (used to destructure a known-`ok` value). -/
def emptyKD : KeywordData := ⟨[], [], [], []⟩

/-- Extract the payload of an `Except` known to be `ok`. -/
def okOr (d : KeywordData) : Except String KeywordData → KeywordData
  | .ok v => v
  | .error _ => d

/-- Witness for C2 at concrete inputs: two same-text terms from Typeform and
Jotform merge into one entry listing both, and a full concrete pipeline run
has pairwise-distinct competitor keyword texts. -/
theorem c2_aggregation_merges_terms_witness :
    (aggregateTerms []
        [mkTerm .month "Typeform" sampleCkwA, mkTerm .month "Jotform" sampleCkwB] =
      [{ mkCompKw (mkTerm .month "Typeform" sampleCkwA) with
          used_by := ["Typeform", "Jotform"] }]) ∧
    (okOr emptyKD
        (getCompetitorKeywords sampleOracle sampleAKws "Forms" .month
          sampleCC)).competitor_keywords.Pairwise
      (fun a b => normKw a.keyword ≠ normKw b.keyword) :=
  ⟨(c2_aggregation_merges_terms.1 (mkTerm .month "Typeform" sampleCkwA)
      (mkTerm .month "Jotform" sampleCkwB) (by decide) (by decide)).1,
   c2_aggregation_merges_terms.2 sampleOracle sampleAKws "Forms" .month sampleCC
      _ (by rfl)⟩

/-! ## Substring containment and stripping: bridge lemmas for C3

`_is_excluded_keyword` tests containment in `keyword.lower().strip()`.
Since no excluded term starts or ends with whitespace, containment in the
lowercased text implies containment in the stripped lowercased text, so the
check rules out every case-insensitive substring occurrence. -/

theorem containsSub_iff (n : List Char) :
    ∀ l : List Char, containsSub n l = true ↔ ∃ pre suf, l = pre ++ n ++ suf := by
  intro l
  induction l with
  | nil =>
    simp only [containsSub, List.isEmpty_iff]
    constructor
    · rintro rfl
      exact ⟨[], [], rfl⟩
    · rintro ⟨pre, suf, h⟩
      rcases List.append_eq_nil.mp (List.append_eq_nil.mp h.symm).1 with ⟨_, h2⟩
      exact h2
  | cons c rest ih =>
    simp only [containsSub, Bool.or_eq_true]
    constructor
    · rintro (h | h)
      · rcases List.isPrefixOf_iff_prefix.mp h with ⟨suf, hsuf⟩
        exact ⟨[], suf, by simp [hsuf]⟩
      · rcases ih.mp h with ⟨pre, suf, hsuf⟩
        exact ⟨c :: pre, suf, by simp [hsuf]⟩
    · rintro ⟨pre, suf, hsuf⟩
      cases pre with
      | nil =>
        left
        exact List.isPrefixOf_iff_prefix.mpr ⟨suf, by simpa using hsuf.symm⟩
      | cons p ps =>
        right
        obtain ⟨-, hrest⟩ : c = p ∧ rest = ps ++ (n ++ suf) := by simpa using hsuf
        exact ih.mpr ⟨ps, suf, by simp [hrest]⟩

/-- True when the list is nonempty and its first element is not whitespace. -/
def headNonWs : List Char → Bool
  | [] => false
  | c :: _ => !c.isWhitespace

theorem dropWhile_occurrence (h : Char) (mid suf : List Char)
    (hh : h.isWhitespace = false) :
    ∀ pre : List Char, ∃ pre2,
      (pre ++ h :: mid ++ suf).dropWhile Char.isWhitespace =
        pre2 ++ h :: mid ++ suf := by
  intro pre
  induction pre with
  | nil =>
    refine ⟨[], ?_⟩
    simp [List.dropWhile_cons, hh]
  | cons p ps ih =>
    by_cases hp : p.isWhitespace
    · rcases ih with ⟨pre2, hpre2⟩
      exact ⟨pre2, by simpa [List.dropWhile_cons, hp] using hpre2⟩
    · exact ⟨p :: ps, by simp [List.dropWhile_cons, hp]⟩

theorem containsSub_of_occurrence (n l : List Char)
    (h : ∃ pre suf, l = pre ++ n ++ suf) : containsSub n l = true :=
  (containsSub_iff n l).mpr h

/-- Occurrences of a needle with non-whitespace first and last characters
survive stripping. -/
theorem containsSub_pyStrip (n l : List Char)
    (h1 : headNonWs n = true) (h2 : headNonWs n.reverse = true)
    (hocc : containsSub n l = true) :
    containsSub n (pyStripChars l) = true := by
  rcases (containsSub_iff n l).mp hocc with ⟨pre, suf, rfl⟩
  cases n with
  | nil => cases h1
  | cons h mid =>
    have hh : h.isWhitespace = false := by
      simpa [headNonWs] using h1
    rcases dropWhile_occurrence h mid suf hh pre with ⟨pre2, hdrop⟩
    unfold pyStripChars
    rw [show pre ++ (h :: mid) ++ suf = pre ++ h :: mid ++ suf by simp, hdrop]
    rcases List.exists_cons_of_ne_nil (l := (h :: mid).reverse) (by simp) with
      ⟨lc, midr, hrev⟩
    have hlc : lc.isWhitespace = false := by
      have : headNonWs (lc :: midr) = true := hrev ▸ h2
      simpa [headNonWs] using this
    have hrev2 : (pre2 ++ h :: mid ++ suf).reverse =
        suf.reverse ++ lc :: midr ++ pre2.reverse := by
      rw [show pre2 ++ h :: mid ++ suf = (pre2 ++ h :: mid) ++ suf by simp,
        List.reverse_append, List.reverse_append, hrev]
      simp
    rw [hrev2]
    rcases dropWhile_occurrence lc midr pre2.reverse hlc suf.reverse with ⟨q, hq⟩
    rw [hq]
    apply containsSub_of_occurrence
    refine ⟨pre2, q.reverse, ?_⟩
    have hmid : midr.reverse ++ [lc] = h :: mid := by
      have hc := congrArg List.reverse hrev
      exact (by simpa using hc : h :: mid = midr.reverse ++ [lc]).symm
    simp only [List.reverse_append, List.reverse_cons, List.reverse_reverse,
      List.append_assoc]
    rw [← List.append_assoc midr.reverse [lc] q.reverse, hmid]

/-- Every excluded product term is nonempty and has non-whitespace first
and last characters. -/
theorem excluded_terms_boundaries :
    ∀ term ∈ EXCLUDED_PRODUCT_TERMS,
      headNonWs term.data = true ∧ headNonWs term.data.reverse = true := by
  decide

/-- The source's exclusion check rules out every case-insensitive substring
occurrence of an excluded term (no trimming in the conclusion). -/
theorem noExcluded_of_check (k : String) (h : isExcludedKeyword k = false) :
    ∀ term ∈ EXCLUDED_PRODUCT_TERMS,
      containsSub term.data (pyLower k).data = false := by
  intro term hterm
  by_contra hocc
  have hocc' : containsSub term.data (pyLower k).data = true := by
    revert hocc
    cases containsSub term.data (pyLower k).data <;> simp
  have hb := excluded_terms_boundaries term hterm
  have hstrip := containsSub_pyStrip term.data (pyLower k).data hb.1 hb.2 hocc'
  have : isExcludedKeyword k = true := by
    unfold isExcludedKeyword
    exact List.any_eq_true.mpr ⟨term, hterm, by simpa [normKw] using hstrip⟩
  rw [h] at this
  cases this

/-! ## Which texts reach each output list -/

/-- Characterisation of a successful `get_competitor_keywords` run in terms
of its four building blocks. -/
theorem getCompetitorKeywords_ok (oracle : Nat → Nat → Option MapResp)
    (articleKws : List AKw) (product : String) (tr : TimeRange)
    (cc : List CompContent) (out : KeywordData)
    (hok : getCompetitorKeywords oracle articleKws product tr cc = .ok out) :
    out.article_keywords = cleanArticleKeywords articleKws ∧
    out.competitor_keywords =
      (mainLoop oracle tr articleKws (cc.take 2) 0
        ((articleKws.filterMap fun kw =>
          if kw.keyword ≠ "" then some kw.keyword else none).take 5) ([], [])).2 ∧
    out.suggested_keywords =
      buildSuggested (cleanArticleKeywords articleKws)
        (mainLoop oracle tr articleKws (cc.take 2) 0
          ((articleKws.filterMap fun kw =>
            if kw.keyword ≠ "" then some kw.keyword else none).take 5) ([], [])).2 ∧
    out.keyword_mappings =
      (mainLoop oracle tr articleKws (cc.take 2) 0
        ((articleKws.filterMap fun kw =>
          if kw.keyword ≠ "" then some kw.keyword else none).take 5) ([], [])).1 := by
  unfold getCompetitorKeywords at hok
  cases hlp : lookupProduct product with
  | none => rw [hlp] at hok; exact absurd hok (by simp)
  | some comps =>
    rw [hlp] at hok
    simp only at hok
    by_cases h1 : articleKws.filterMap (fun kw =>
        if kw.keyword ≠ "" then some kw.keyword else none) = []
    · rw [if_pos h1] at hok; exact absurd hok (by simp)
    · rw [if_neg h1] at hok
      by_cases h2 : cc = []
      · rw [if_pos h2] at hok; exact absurd hok (by simp)
      · rw [if_neg h2] at hok
        simp only [Except.ok.injEq] at hok
        subst hok
        exact ⟨rfl, rfl, rfl, rfl⟩

theorem cleanArticleKeywords_not_excluded (articleKws : List AKw) :
    ∀ e ∈ cleanArticleKeywords articleKws, isExcludedKeyword e.keyword = false := by
  intro e he
  rcases List.mem_filterMap.mp he with ⟨a, _, ha⟩
  by_cases hc : a.keyword ≠ "" ∧ isExcludedKeyword a.keyword = false
  · rw [if_pos hc] at ha
    cases ha
    simpa [mkCleanKw] using hc.2
  · rw [if_neg hc] at ha
    cases ha

theorem collectTerms_not_excluded (oracle : Nat → Nat → Option MapResp)
    (tr : TimeRange) (aIdx : Nat) :
    ∀ (ccs : List CompContent) (cIdx : Nat),
      ∀ t ∈ collectTerms oracle tr aIdx cIdx ccs,
        isExcludedKeyword t.keyword = false := by
  intro ccs
  induction ccs with
  | nil => intro cIdx t ht; exact absurd ht (List.not_mem_nil t)
  | cons comp rest ih =>
    intro cIdx t ht
    simp only [collectTerms] at ht
    by_cases hc : comp.content = ""
    · rw [if_pos hc] at ht
      exact ih (cIdx + 1) t ht
    · rw [if_neg hc] at ht
      cases horacle : oracle aIdx cIdx with
      | none => rw [horacle] at ht; exact ih (cIdx + 1) t ht
      | some resp =>
        rw [horacle] at ht
        have ht2 : t ∈ (match resp.competitor_keyword with
          | none => collectTerms oracle tr aIdx (cIdx + 1) rest
          | some ckw =>
            if ckw.keyword ≠ "" ∧ isExcludedKeyword ckw.keyword = false then
              mkTerm tr comp.competitor_name ckw ::
                collectTerms oracle tr aIdx (cIdx + 1) rest
            else collectTerms oracle tr aIdx (cIdx + 1) rest) := ht
        cases hck : resp.competitor_keyword with
        | none => rw [hck] at ht2; exact ih (cIdx + 1) t ht2
        | some ckw =>
          rw [hck] at ht2
          have ht3 : t ∈ (if ckw.keyword ≠ "" ∧ isExcludedKeyword ckw.keyword = false
            then mkTerm tr comp.competitor_name ckw ::
              collectTerms oracle tr aIdx (cIdx + 1) rest
            else collectTerms oracle tr aIdx (cIdx + 1) rest) := ht2
          by_cases hacc : ckw.keyword ≠ "" ∧ isExcludedKeyword ckw.keyword = false
          · rw [if_pos hacc] at ht3
            rcases List.mem_cons.mp ht3 with rfl | ht'
            · simpa [mkTerm] using hacc.2
            · exact ih (cIdx + 1) t ht'
          · rw [if_neg hacc] at ht3
            exact ih (cIdx + 1) t ht3

theorem insertCompTerm_keyword_inv (P : String → Prop) (t : Term)
    (acc : List CompKw) (hacc : ∀ e ∈ acc, P e.keyword) (ht : P t.keyword) :
    ∀ e ∈ insertCompTerm t acc, P e.keyword := by
  intro e he
  rcases insertCompTerm_keyword acc t e he with h | ⟨g, hg, h⟩
  · rw [h]; exact ht
  · rw [h]; exact hacc g hg

theorem aggregateTerms_keyword_inv (P : String → Prop) :
    ∀ (terms : List Term) (init : List CompKw),
      (∀ e ∈ init, P e.keyword) → (∀ t ∈ terms, P t.keyword) →
      ∀ e ∈ aggregateTerms init terms, P e.keyword := by
  intro terms
  induction terms with
  | nil => intro init hinit _ e he; exact hinit e he
  | cons t ts ih =>
    intro init hinit hterms e he
    exact ih (insertCompTerm t init)
      (insertCompTerm_keyword_inv P t init hinit
        (hterms t (List.mem_cons_self t ts)))
      (fun u hu => hterms u (List.mem_cons_of_mem t hu)) e he

/-- Both components produced by the main loop only carry accepted
(non-excluded) keyword texts. -/
theorem mainLoop_not_excluded (oracle : Nat → Nat → Option MapResp)
    (tr : TimeRange) (articleKws : List AKw) (ccs : List CompContent) :
    ∀ (aks : List String) (aIdx : Nat) (maps : List Mapping) (agg : List CompKw),
      (∀ e ∈ agg, isExcludedKeyword e.keyword = false) →
      (∀ m ∈ maps, ∀ t ∈ m.competitor_keywords,
        isExcludedKeyword t.keyword = false) →
      (∀ e ∈ (mainLoop oracle tr articleKws ccs aIdx aks (maps, agg)).2,
        isExcludedKeyword e.keyword = false) ∧
      (∀ m ∈ (mainLoop oracle tr articleKws ccs aIdx aks (maps, agg)).1,
        ∀ t ∈ m.competitor_keywords, isExcludedKeyword t.keyword = false) := by
  intro aks
  induction aks with
  | nil => intro aIdx maps agg h1 h2; exact ⟨h1, h2⟩
  | cons ak rest ih =>
    intro aIdx maps agg h1 h2
    by_cases ht : collectTerms oracle tr aIdx 0 ccs = []
    · simpa [mainLoop, ht] using ih (aIdx + 1) maps agg h1 h2
    · have hsorted : ∀ t ∈ sortDescBy Term.search_volume
          (collectTerms oracle tr aIdx 0 ccs),
          isExcludedKeyword t.keyword = false := by
        intro t htm
        exact collectTerms_not_excluded oracle tr aIdx ccs 0 t
          ((mem_sortDescBy _ t _).mp htm)
      have hagg' : ∀ e ∈ aggregateTerms agg (sortDescBy Term.search_volume
          (collectTerms oracle tr aIdx 0 ccs)),
          isExcludedKeyword e.keyword = false :=
        aggregateTerms_keyword_inv (fun s => isExcludedKeyword s = false) _ agg
          h1 hsorted
      have hmaps' : ∀ m ∈ maps ++ [⟨ak,
          (match findArticleData articleKws ak with
            | some a => a.search_volume
            | none => some 0),
          sortDescBy Term.search_volume (collectTerms oracle tr aIdx 0 ccs)⟩],
          ∀ t ∈ m.competitor_keywords, isExcludedKeyword t.keyword = false := by
        intro m hm
        rcases List.mem_append.mp hm with hm' | hm'
        · exact h2 m hm'
        · rcases List.mem_singleton.mp hm' with rfl
          exact hsorted
      simpa [mainLoop, ht] using ih (aIdx + 1) _ _ hagg' hmaps'

/-- Every pool entry's text comes from a cleaned article keyword or an
aggregated competitor keyword. -/
theorem suggestionPool_keyword (articleClean : List CleanKw) (compAll : List CompKw) :
    ∀ kw ∈ suggestionPool articleClean compAll,
      (∃ x ∈ articleClean, kw.keyword = x.keyword) ∨
      (∃ x ∈ compAll, kw.keyword = x.keyword) := by
  intro kw hkw
  rcases List.mem_append.mp hkw with h | h
  · rcases List.mem_filterMap.mp h with ⟨a, ha, hmk⟩
    by_cases hv : a.search_volume ≠ none
    · rw [if_pos hv] at hmk
      cases hmk
      exact Or.inl ⟨a, ha, rfl⟩
    · rw [if_neg hv] at hmk; cases hmk
  · rcases List.mem_filterMap.mp h with ⟨c, hc, hmk⟩
    by_cases hv : (sugOfComp c).search_volume ≠ none
    · rw [if_pos hv] at hmk
      cases hmk
      exact Or.inr ⟨c, hc, rfl⟩
    · rw [if_neg hv] at hmk; cases hmk

/-- Every suggested output row is built from some pool entry. -/
theorem mem_buildSuggested (articleClean : List CleanKw) (compAll : List CompKw) :
    ∀ e ∈ buildSuggested articleClean compAll,
      ∃ kw ∈ suggestionPool articleClean compAll, e = mkSuggested kw := by
  intro e he
  rw [buildSuggested_eq] at he
  rcases List.mem_map.mp he with ⟨kw, hkw, rfl⟩
  have h1 : kw ∈ dedupPick []
      (sortDescBy sugKey (suggestionPool articleClean compAll)) :=
    (List.take_sublist _ _).subset hkw
  have h2 : kw ∈ sortDescBy sugKey (suggestionPool articleClean compAll) :=
    (dedupPick_sublist _ _).subset h1
  exact ⟨kw, (mem_sortDescBy _ kw _).mp h2, rfl⟩

/-- C3: in every keyword list produced by the pipeline — `article_keywords`,
`competitor_keywords`, `suggested_keywords` and the `competitor_keywords`
of every mapping — no entry's text contains an excluded product term as a
case-insensitive substring. -/
theorem c3_no_excluded_terms (oracle : Nat → Nat → Option MapResp)
    (articleKws : List AKw) (product : String) (tr : TimeRange)
    (cc : List CompContent) (out : KeywordData)
    (hok : getCompetitorKeywords oracle articleKws product tr cc = .ok out) :
    (∀ e ∈ out.article_keywords, ∀ term ∈ EXCLUDED_PRODUCT_TERMS,
      containsSub term.data (pyLower e.keyword).data = false) ∧
    (∀ e ∈ out.competitor_keywords, ∀ term ∈ EXCLUDED_PRODUCT_TERMS,
      containsSub term.data (pyLower e.keyword).data = false) ∧
    (∀ e ∈ out.suggested_keywords, ∀ term ∈ EXCLUDED_PRODUCT_TERMS,
      containsSub term.data (pyLower e.keyword).data = false) ∧
    (∀ m ∈ out.keyword_mappings, ∀ t ∈ m.competitor_keywords,
      ∀ term ∈ EXCLUDED_PRODUCT_TERMS,
        containsSub term.data (pyLower t.keyword).data = false) := by
  obtain ⟨ha, hc, hs, hm⟩ := getCompetitorKeywords_ok oracle articleKws product
    tr cc out hok
  have hloop := mainLoop_not_excluded oracle tr articleKws (cc.take 2)
    ((articleKws.filterMap fun kw =>
      if kw.keyword ≠ "" then some kw.keyword else none).take 5) 0 [] []
    (by intro e he; exact absurd he (List.not_mem_nil e))
    (by intro m hm'; exact absurd hm' (List.not_mem_nil m))
  refine ⟨?_, ?_, ?_, ?_⟩
  · intro e he
    rw [ha] at he
    exact noExcluded_of_check _ (cleanArticleKeywords_not_excluded articleKws e he)
  · intro e he
    rw [hc] at he
    exact noExcluded_of_check _ (hloop.1 e he)
  · intro e he
    rw [hs] at he
    rcases mem_buildSuggested _ _ e he with ⟨kw, hkw, rfl⟩
    rcases suggestionPool_keyword _ _ kw hkw with ⟨x, hx, hkx⟩ | ⟨x, hx, hkx⟩
    · have := cleanArticleKeywords_not_excluded articleKws x hx
      have : isExcludedKeyword kw.keyword = false := by rw [hkx]; exact this
      simpa [mkSuggested] using noExcluded_of_check _ this
    · have := hloop.1 x hx
      have : isExcludedKeyword kw.keyword = false := by rw [hkx]; exact this
      simpa [mkSuggested] using noExcluded_of_check _ this
  · intro m hmem t htm
    rw [hm] at hmem
    exact noExcluded_of_check _ (hloop.2 m hmem t htm)

/-- Witness for C3: a full concrete pipeline run whose four output lists all
avoid the excluded terms. -/
theorem c3_no_excluded_terms_witness :
    let out := okOr emptyKD
      (getCompetitorKeywords sampleOracle sampleAKws "Forms" .month sampleCC)
    (∀ e ∈ out.article_keywords, ∀ term ∈ EXCLUDED_PRODUCT_TERMS,
      containsSub term.data (pyLower e.keyword).data = false) ∧
    (∀ e ∈ out.competitor_keywords, ∀ term ∈ EXCLUDED_PRODUCT_TERMS,
      containsSub term.data (pyLower e.keyword).data = false) ∧
    (∀ e ∈ out.suggested_keywords, ∀ term ∈ EXCLUDED_PRODUCT_TERMS,
      containsSub term.data (pyLower e.keyword).data = false) ∧
    (∀ m ∈ out.keyword_mappings, ∀ t ∈ m.competitor_keywords,
      ∀ term ∈ EXCLUDED_PRODUCT_TERMS,
        containsSub term.data (pyLower t.keyword).data = false) :=
  c3_no_excluded_terms sampleOracle sampleAKws "Forms" .month sampleCC _ (by rfl)

/-! ## C9: defaulting of missing numeric fields in the mapping stage -/

/-- Counterexample to C9 as stated: with time range `week`, an accepted
response that omits the selected volume field (`weekly_volume`) but carries
`monthly_volume = 2000` is stored with search volume 2000, not the claimed
default 500 — the code falls back to `monthly_volume` before 500. -/
theorem c9_counterexample_monthly_fallback :
    volByRange sampleCkwA .week = none ∧
    (mkTerm .week "Typeform" sampleCkwA).search_volume = 2000 ∧
    ¬ (mkTerm .week "Typeform" sampleCkwA).search_volume = 500 := by
  decide

/-- C9 (amended): for every accepted competitor term, missing numeric
fields are defaulted rather than rejected — cpc→1.5, difficulty→"medium",
relevance→7, found_in→"content" — and a missing (or zero, which Python's
`or` also treats as falsy) selected volume field falls back to the
response's `monthly_volume` when that is present and nonzero, and to 500
only when `monthly_volume` is also missing or zero; the accepted pair is
prepended to the term list, never dropped. -/
theorem c9_missing_fields_defaulted (tr : TimeRange) (compName : String)
    (ckw : Ckw) :
    ((ckw.cpc = none → (mkTerm tr compName ckw).cpc = 3/2) ∧
     (ckw.difficulty = none → (mkTerm tr compName ckw).difficulty = "medium") ∧
     (ckw.relevance_score = none → (mkTerm tr compName ckw).relevance_score = 7) ∧
     (ckw.found_in = none → (mkTerm tr compName ckw).found_in = "content") ∧
     ((volByRange ckw tr = none ∨ volByRange ckw tr = some 0) →
       ((ckw.monthly_volume = none ∨ ckw.monthly_volume = some 0) →
         (mkTerm tr compName ckw).search_volume = 500) ∧
       (∀ m : Nat, ckw.monthly_volume = some m → m ≠ 0 →
         (mkTerm tr compName ckw).search_volume = m))) ∧
    (∀ (oracle : Nat → Nat → Option MapResp) (aIdx cIdx : Nat)
      (comp : CompContent) (rest : List CompContent),
      comp.content ≠ "" → compName = comp.competitor_name →
      oracle aIdx cIdx = some ⟨some ckw⟩ →
      ckw.keyword ≠ "" → isExcludedKeyword ckw.keyword = false →
      collectTerms oracle tr aIdx cIdx (comp :: rest) =
        mkTerm tr compName ckw :: collectTerms oracle tr aIdx (cIdx + 1) rest) := by
  constructor
  · refine ⟨?_, ?_, ?_, ?_, ?_⟩
    · intro h; simp [mkTerm, pyOrQ, h]
    · intro h; simp [mkTerm, pyOrStr, h]
    · intro h; simp [mkTerm, pyOrNat, h]
    · intro h; simp [mkTerm, h]
    · intro hsel
      constructor
      · intro hmon
        rcases hsel with h1 | h1 <;> rcases hmon with h2 | h2 <;>
          simp [mkTerm, pyOrNat, h1, h2]
      · intro m h2 hm
        rcases hsel with h1 | h1 <;> simp [mkTerm, pyOrNat, h1, h2, hm]
  · intro oracle aIdx cIdx comp rest hcont hname horacle hkw hex
    subst hname
    simp [collectTerms, hcont, horacle, hkw, hex]

/-- A sample oracle answer whose selected volume field and monthly volume
are both the falsy `0`. -/
def sampleCkwZero : Ckw :=
  { keyword := "field validation", weekly_volume := some 0
    monthly_volume := some 0, yearly_volume := none, cpc := none
    difficulty := none, relevance_score := none, found_in := none }

/-- Witness for the amended C9 at concrete sample responses: every numeric
field of `sampleCkwA` except its monthly volume is absent and the accepted
term carries all the defaults while being stored; a zero selected volume
field falls back to a nonzero monthly volume, and to 500 when the monthly
volume is zero too. -/
theorem c9_missing_fields_defaulted_witness :
    ((mkTerm .month "Typeform" sampleCkwA).cpc = 3/2 ∧
     (mkTerm .month "Typeform" sampleCkwA).difficulty = "medium" ∧
     (mkTerm .month "Typeform" sampleCkwA).relevance_score = 7 ∧
     (mkTerm .month "Typeform" sampleCkwA).found_in = "content") ∧
    (mkTerm .week "Typeform" sampleCkwZero).search_volume = 500 ∧
    (mkTerm .week "Typeform" sampleCkwA).search_volume = 2000 ∧
    collectTerms sampleOracle .month 0 0 sampleCC =
      mkTerm .month "Typeform" sampleCkwA ::
        collectTerms sampleOracle .month 0 1 [⟨"Jotform", "jotform body text", []⟩] :=
  ⟨⟨(c9_missing_fields_defaulted .month "Typeform" sampleCkwA).1.1 rfl,
    (c9_missing_fields_defaulted .month "Typeform" sampleCkwA).1.2.1 rfl,
    (c9_missing_fields_defaulted .month "Typeform" sampleCkwA).1.2.2.1 rfl,
    (c9_missing_fields_defaulted .month "Typeform" sampleCkwA).1.2.2.2.1 rfl⟩,
   ((c9_missing_fields_defaulted .week "Typeform" sampleCkwZero).1.2.2.2.2
     (Or.inr rfl)).1 (Or.inr rfl),
   ((c9_missing_fields_defaulted .week "Typeform" sampleCkwA).1.2.2.2.2
     (Or.inl rfl)).2 2000 rfl (by decide),
   c9_missing_fields_defaulted .month "Typeform" sampleCkwA |>.2 sampleOracle 0 0
     ⟨"Typeform", "typeform body text", ["Spam protection"]⟩
     [⟨"Jotform", "jotform body text", []⟩]
     (by decide) (by decide) (by decide) (by decide) (by decide)⟩

/-! ## Competitor agent: URL discovery and merge (competitor_agent.py) -/

/-- Model of Python `s.rstrip('/')`: drop every trailing slash. -/
def rstripSlash (s : String) : String :=
  ⟨(s.data.reverse.dropWhile (fun c => c = '/')).reverse⟩

/-- `CompetitorFetchingAgent._get_common_paths` (competitor_agent.py
lines 75-101): the fixed 20-entry generic path list. -/
def commonPaths : List String :=
  ["/help", "/help/", "/support", "/support/", "/docs", "/docs/",
   "/documentation", "/blog", "/blog/", "/features", "/features/",
   "/product", "/products", "/resources", "/resources/", "/learn",
   "/guides", "/faq", "/knowledge-base", "/articles"]

/-- The help/documentation keywords scanned for in anchors
(competitor_agent.py line 130). -/
def helpKeywords : List String :=
  ["help", "support", "docs", "documentation", "knowledge", "faq", "guide",
   "learn", "resources", "how-to", "blog", "features", "product"]

/-- An anchor tag of the homepage as delivered by the external markup
parser: its `href` attribute and its stripped visible text. -/
structure Link where
  href : String
  text : String
deriving Repr, DecidableEq

/-- `base_domain` extraction (competitor_agent.py lines 113-116):
`base_url_clean.split('//')[1].split('/')[0]`, falling back to
`base_url_clean` when there is no second `//`-separated component. -/
def baseDomainOf (base_clean : String) : String :=
  match base_clean.splitOn "//" with
  | _ :: d :: _ => (d.splitOn "/").headD d
  | _ => base_clean

/-- The help-link test (competitor_agent.py lines 134-137): some help
keyword occurs in the lowercased href or in the lowercased link text. -/
def isHelpLink (link : Link) : Bool :=
  helpKeywords.any fun kw =>
    containsSubStr kw (pyLower link.href) || containsSubStr kw (pyLower link.text)

/-- Normalising one href (competitor_agent.py lines 140-146): root-relative
hrefs are joined onto `https://` + domain, absolute `http…` hrefs are kept,
anything else is skipped. -/
def normalizeHref (base_domain : String) (href : String) : Option String :=
  if href.startsWith "/" then some ("https://" ++ base_domain ++ href)
  else if href.startsWith "http" then some href
  else none

/-- The domain restriction (competitor_agent.py line 149). -/
def sameDomainOk (base_domain full_url : String) : Bool :=
  containsSubStr base_domain full_url || containsSubStr "help." full_url ||
    containsSubStr "support." full_url

/-- Appending one homepage link to the discovery list if it qualifies and
is not already present (competitor_agent.py lines 132-151). -/
def addLink (base_domain : String) (acc : List String) (link : Link) : List String :=
  if isHelpLink link then
    match normalizeHref base_domain link.href with
    | some full_url =>
      if sameDomainOk base_domain full_url ∧ full_url ∉ acc then acc ++ [full_url]
      else acc
    | none => acc
  else acc

/-- `CompetitorFetchingAgent.discover_help_urls` (competitor_agent.py lines
103-153): seed the list with every generic path joined onto the cleaned
base URL, then append qualifying homepage links not already present, and
return the first ten entries.  The anchor list of the main page markup is
produced by the external parser and passed in as `links`. -/
def discoverHelpUrls (base_url : String) (links : List Link) : List String :=
  let base_clean := rstripSlash base_url
  let base_domain := baseDomainOf base_clean
  let seeded := commonPaths.foldl
    (fun acc path =>
      if (base_clean ++ path) ∉ acc then acc ++ [base_clean ++ path] else acc) []
  let discovered := links.foldl (addLink base_domain) seeded
  discovered.take 10

/-- The merge-and-dedup loop of `get_competitor_content_for_capability`
(competitor_agent.py lines 524-531): keep the first occurrence of each URL
of the concatenated candidate list. -/
def uniqueUrlsGo (seen : List String) : List String → List String
  | [] => []
  | u :: us =>
    if u ∈ seen then uniqueUrlsGo seen us
    else u :: uniqueUrlsGo (u :: seen) us

/-- First-occurrence dedup of a URL list (competitor_agent.py 526-531). -/
def uniqueUrls (urls : List String) : List String := uniqueUrlsGo [] urls

/-- The `seen` set after processing a list of URLs. -/
def accSeen (seen : List String) : List String → List String
  | [] => seen
  | u :: us => accSeen (if u ∈ seen then seen else u :: seen) us

/-! ## Lemmas about the URL merge -/

theorem mem_accSeen (x : String) :
    ∀ (l : List String) (seen : List String),
      x ∈ accSeen seen l ↔ x ∈ seen ∨ x ∈ l := by
  intro l
  induction l with
  | nil => intro seen; simp [accSeen]
  | cons u us ih =>
    intro seen
    by_cases hu : u ∈ seen
    · rw [accSeen, if_pos hu, ih]
      constructor
      · rintro (h | h)
        · exact Or.inl h
        · exact Or.inr (List.mem_cons_of_mem u h)
      · rintro (h | h)
        · exact Or.inl h
        · rcases List.mem_cons.mp h with rfl | h'
          · exact Or.inl hu
          · exact Or.inr h'
    · rw [accSeen, if_neg hu, ih]
      simp only [List.mem_cons]
      tauto

theorem uniqueUrlsGo_sublist :
    ∀ (l : List String) (seen : List String),
      List.Sublist (uniqueUrlsGo seen l) l := by
  intro l
  induction l with
  | nil => intro seen; simp [uniqueUrlsGo]
  | cons u us ih =>
    intro seen
    by_cases hu : u ∈ seen
    · rw [uniqueUrlsGo, if_pos hu]
      exact List.Sublist.cons u (ih seen)
    · rw [uniqueUrlsGo, if_neg hu]
      exact List.Sublist.cons₂ u (ih (u :: seen))

theorem mem_uniqueUrlsGo (x : String) :
    ∀ (l : List String) (seen : List String),
      x ∈ uniqueUrlsGo seen l ↔ x ∈ l ∧ x ∉ seen := by
  intro l
  induction l with
  | nil => intro seen; simp [uniqueUrlsGo]
  | cons u us ih =>
    intro seen
    by_cases hu : u ∈ seen
    · rw [uniqueUrlsGo, if_pos hu, ih]
      constructor
      · rintro ⟨h, h2⟩
        exact ⟨List.mem_cons_of_mem u h, h2⟩
      · rintro ⟨h, h2⟩
        rcases List.mem_cons.mp h with rfl | h'
        · exact absurd hu h2
        · exact ⟨h', h2⟩
    · rw [uniqueUrlsGo, if_neg hu]
      constructor
      · intro h
        rcases List.mem_cons.mp h with rfl | h'
        · exact ⟨List.mem_cons_self x us, hu⟩
        · have h2 := (ih (u :: seen)).mp h'

          exact ⟨List.mem_cons_of_mem u h2.1,
            fun hc => h2.2 (List.mem_cons_of_mem u hc)⟩
      · rintro ⟨h, h2⟩
        by_cases hxu : x = u
        · subst hxu
          exact List.mem_cons_self x _
        · rcases List.mem_cons.mp h with h' | h'
          · exact absurd h' hxu
          · exact List.mem_cons_of_mem u ((ih (u :: seen)).mpr
              ⟨h', fun hc => (List.mem_cons.mp hc).elim hxu h2⟩)

theorem uniqueUrlsGo_nodup :
    ∀ (l : List String) (seen : List String), (uniqueUrlsGo seen l).Nodup := by
  intro l
  induction l with
  | nil => intro seen; simp [uniqueUrlsGo]
  | cons u us ih =>
    intro seen
    by_cases hu : u ∈ seen
    · rw [uniqueUrlsGo, if_pos hu]; exact ih seen
    · rw [uniqueUrlsGo, if_neg hu]
      refine List.nodup_cons.mpr ⟨?_, ih (u :: seen)⟩
      intro hc
      exact ((mem_uniqueUrlsGo u us (u :: seen)).mp hc).2 (List.mem_cons_self u seen)

theorem uniqueUrlsGo_append :
    ∀ (a b : List String) (seen : List String),
      uniqueUrlsGo seen (a ++ b) =
        uniqueUrlsGo seen a ++ uniqueUrlsGo (accSeen seen a) b := by
  intro a
  induction a with
  | nil => intro b seen; simp [uniqueUrlsGo, accSeen]
  | cons u us ih =>
    intro b seen
    by_cases hu : u ∈ seen
    · simp only [List.cons_append, uniqueUrlsGo, if_pos hu, accSeen]
      exact ih b seen
    · simp only [List.cons_append, uniqueUrlsGo, if_neg hu, accSeen,
        List.cons_append]
      exact congrArg (u :: ·) (ih b (u :: seen))

/-- C4: the merged candidate list is the oracle-guessed URLs followed by
the discovered URLs, deduplicated by exact string equality keeping the
first occurrence: the result has no duplicates, is a sublist of the
concatenation (first-seen order preserved), contains every candidate, and
decomposes as the deduplicated oracle URLs followed by a remainder of
discovered URLs none of which duplicates an oracle URL — so every oracle
URL precedes every discovered non-duplicate URL. -/
theorem c4_url_merge (llmUrls discovered : List String) :
    (uniqueUrls (llmUrls ++ discovered)).Nodup ∧
    List.Sublist (uniqueUrls (llmUrls ++ discovered)) (llmUrls ++ discovered) ∧
    (∀ u, u ∈ llmUrls ++ discovered ↔ u ∈ uniqueUrls (llmUrls ++ discovered)) ∧
    (∃ rest, uniqueUrls (llmUrls ++ discovered) = uniqueUrls llmUrls ++ rest ∧
      ∀ v ∈ rest, v ∈ discovered ∧ v ∉ llmUrls) := by
  refine ⟨uniqueUrlsGo_nodup _ [], uniqueUrlsGo_sublist _ [], ?_, ?_⟩
  · intro u
    constructor
    · intro h
      exact (mem_uniqueUrlsGo u (llmUrls ++ discovered) []).mpr
        ⟨h, List.not_mem_nil u⟩
    · intro h
      exact ((mem_uniqueUrlsGo u (llmUrls ++ discovered) []).mp h).1
  · refine ⟨uniqueUrlsGo (accSeen [] llmUrls) discovered, ?_, ?_⟩
    · exact uniqueUrlsGo_append llmUrls discovered []
    · intro v hv
      have h := (mem_uniqueUrlsGo v discovered (accSeen [] llmUrls)).mp hv
      refine ⟨h.1, fun hc => h.2 ?_⟩
      exact (mem_accSeen v llmUrls []).mpr (Or.inr hc)

/-! ## C10: the help-URL discovery output -/

theorem string_append_cancel_left (base p1 p2 : String)
    (h : base ++ p1 = base ++ p2) : p1 = p2 := by
  have hd : (base ++ p1).data = (base ++ p2).data := congrArg String.data h
  rw [String.data_append, String.data_append] at hd
  exact String.ext (List.append_cancel_left hd)

/-- Seeding the discovery list appends every joined path: the joined paths
are pairwise distinct, so the membership guard never fires. -/
theorem seed_foldl (base : String) :
    ∀ (paths : List String) (acc : List String),
      (∀ p ∈ paths, (base ++ p) ∉ acc) → paths.Nodup →
      paths.foldl (fun acc path =>
        if (base ++ path) ∉ acc then acc ++ [base ++ path] else acc) acc =
      acc ++ paths.map (base ++ ·) := by
  intro paths
  induction paths with
  | nil => intro acc _ _; simp
  | cons p ps ih =>
    intro acc hnotin hnd
    have hp : (base ++ p) ∉ acc := hnotin p (List.mem_cons_self p ps)
    rcases List.nodup_cons.mp hnd with ⟨hp2, hnd'⟩
    have hstep : ∀ a ∈ ps, (base ++ a) ∉ acc ++ [base ++ p] := by
      intro a ha hmem
      rcases List.mem_append.mp hmem with h' | h'
      · exact hnotin a (List.mem_cons_of_mem p ha) h'
      · have heq : base ++ a = base ++ p := List.mem_singleton.mp h'
        have hap : a = p := string_append_cancel_left base a p heq
        exact hp2 (hap ▸ ha)
    simp only [List.foldl_cons, if_pos hp]
    rw [ih (acc ++ [base ++ p]) hstep hnd']
    simp

/-- One `addLink` step never removes or reorders what was already
discovered: it appends at most one URL. -/
theorem addLink_foldl_extends (d : String) :
    ∀ (ls : List Link) (acc : List String),
      ∃ extra, ls.foldl (addLink d) acc = acc ++ extra := by
  intro ls
  induction ls with
  | nil => intro acc; exact ⟨[], by simp⟩
  | cons link rest ih =>
    intro acc
    have hstep : ∃ x, addLink d acc link = acc ++ x := by
      unfold addLink
      by_cases h1 : isHelpLink link = true
      · rw [if_pos h1]
        cases hn : normalizeHref d link.href with
        | none => exact ⟨[], by simp⟩
        | some full_url =>
          by_cases h2 : sameDomainOk d full_url = true ∧ full_url ∉ acc
          · exact ⟨[full_url], by simp [h2]⟩
          · exact ⟨[], by simp [h2]⟩
      · rw [if_neg h1]
        exact ⟨[], by simp⟩
    rcases hstep with ⟨x, hx⟩
    rcases ih (acc ++ x) with ⟨extra, hex⟩
    refine ⟨x ++ extra, ?_⟩
    rw [List.foldl_cons, hx, hex, List.append_assoc]

/-- C10: for every base URL and every homepage anchor list, the discovery
function returns exactly the base URL (with trailing slashes dropped)
joined with the first ten of the twenty generic paths — ten URLs in all;
anchors scanned from the homepage can only be appended after the twenty
seeded paths and are always cut off by the cap. -/
theorem c10_discover_returns_first_ten_paths (base_url : String)
    (links : List Link) :
    discoverHelpUrls base_url links =
      (commonPaths.take 10).map (fun p => rstripSlash base_url ++ p) ∧
    (discoverHelpUrls base_url links).length = 10 := by
  have hseed : commonPaths.foldl (fun acc path =>
      if (rstripSlash base_url ++ path) ∉ acc then
        acc ++ [rstripSlash base_url ++ path] else acc) [] =
      commonPaths.map (rstripSlash base_url ++ ·) := by
    have := seed_foldl (rstripSlash base_url) commonPaths []
      (by intro p _ h; exact absurd h (List.not_mem_nil _)) (by decide)
    simpa using this
  rcases addLink_foldl_extends (baseDomainOf (rstripSlash base_url)) links
    (commonPaths.foldl (fun acc path =>
      if (rstripSlash base_url ++ path) ∉ acc then
        acc ++ [rstripSlash base_url ++ path] else acc) []) with ⟨extra, hex⟩
  have hunfold : discoverHelpUrls base_url links =
      (links.foldl (addLink (baseDomainOf (rstripSlash base_url)))
        (commonPaths.foldl (fun acc path =>
          if (rstripSlash base_url ++ path) ∉ acc then
            acc ++ [rstripSlash base_url ++ path] else acc) [])).take 10 := rfl
  have hmain : discoverHelpUrls base_url links =
      (commonPaths.take 10).map (fun p => rstripSlash base_url ++ p) := by
    rw [hunfold, hex, hseed,
      List.take_append_of_le_length (by simp [commonPaths]), ← List.map_take]
  exact ⟨hmain, by rw [hmain]; simp [commonPaths]⟩

/-! ## Capability-specific scraping (competitor_agent.py lines 396-632)

The page fetcher and the markup content extractor are external
collaborators: `fetch url` is the markup `_fetch_page` returns (the empty
string on any failure), and `extractF html url` is the
title/headings/body record the extractor returns for non-empty markup. -/

/-- The output of the external content extractor (`_extract_content`). -/
structure ExtractOut where
  title : String
  headings : List String
  content : String
deriving Repr, DecidableEq

/-- One `urls_tried` entry: the URL and its recorded status string. -/
structure UrlTried where
  url : String
  status : String
deriving Repr, DecidableEq

/-- The result record of `scrape_capability_specific_urls`
(competitor_agent.py lines 409-417). -/
structure ScrapeAcc where
  competitor_name : String
  feature_name : String
  urls_tried : List UrlTried
  urls_successful : List String
  content_extracted : String
  headings : List String
deriving Repr, DecidableEq

/-- One iteration of the URL loop (competitor_agent.py lines 419-443): the
markup must be non-empty and longer than 500 characters, and the extracted
body non-empty and longer than 200 characters, for the URL to succeed; a
success appends the URL-prefixed body capped at 4,000 characters. -/
def scrapeStep (fetch : String → String) (extractF : String → String → ExtractOut)
    (acc : ScrapeAcc) (url : String) : ScrapeAcc :=
  let html := fetch url
  if html ≠ "" ∧ 500 < pyLen html then
    let cd := extractF html url
    if cd.content ≠ "" ∧ 200 < pyLen cd.content then
      { acc with
        urls_tried := acc.urls_tried ++ [⟨url, "success"⟩]
        urls_successful := acc.urls_successful ++ [url]
        content_extracted := acc.content_extracted ++
          "\n\n=== FROM " ++ url ++ " ===\n" ++ pyTake cd.content 4000
        headings := acc.headings ++ cd.headings }
    else { acc with urls_tried := acc.urls_tried ++ [⟨url, "no_content"⟩] }
  else { acc with urls_tried := acc.urls_tried ++ [⟨url, "empty"⟩] }

/-- The loop over the first five candidate URLs. -/
def scrapeLoop (fetch : String → String) (extractF : String → String → ExtractOut)
    (competitor_name feature_name : String) (probable_urls : List String) :
    ScrapeAcc :=
  (probable_urls.take 5).foldl (scrapeStep fetch extractF)
    { competitor_name := competitor_name, feature_name := feature_name
      urls_tried := [], urls_successful := [], content_extracted := ""
      headings := [] }

/-- `scrape_capability_specific_urls` (competitor_agent.py lines 396-456):
the loop over the first five URLs, then — when no URL succeeded — the
base-URL fallback, which re-fetches the base URL (line 448, a network call
of its own, independent of every earlier fetch, hence the separate
`refetch` function) and requires only non-empty markup and non-empty
extracted body (no length thresholds), storing the body capped at 5,000
characters. -/
def scrapeCapabilityUrls (fetch refetch : String → String)
    (extractF : String → String → ExtractOut)
    (competitor_name base_url : String) (probable_urls : List String)
    (feature_name : String) : ScrapeAcc :=
  let acc := scrapeLoop fetch extractF competitor_name feature_name probable_urls
  if acc.urls_successful = [] then
    let html := refetch base_url
    if html ≠ "" then
      let cd := extractF html base_url
      if cd.content ≠ "" then
        { acc with
          urls_successful := acc.urls_successful ++ [base_url]
          content_extracted := pyTake cd.content 5000
          headings := cd.headings }
      else acc
    else acc
  else acc

/-- The oracle's competitor-capability guess (`find_competitor_capability_urls`):
`none` models a thrown call or a falsy parsed object. -/
structure Guess where
  likely_feature_name : Option String
  probable_urls : List String
  terminology_hints : List String
deriving Repr, DecidableEq

/-- One competitor's entry of the `competitor_content` output list
(competitor_agent.py lines 544-554 and 564-574). -/
structure Entry where
  competitor_name : String
  competitor_url : String
  capability_name : String
  competitor_feature_name : String
  urls_scraped : List String
  content : String
  headings : List String
  terminology_hints : List String
  pages_scraped : Nat
deriving Repr, DecidableEq

/-- The name field of the capability dict with default
(`capability.get('name', 'Unknown')`). -/
structure CapabilityIn where
  name : Option String
deriving Repr, DecidableEq

/-- The per-competitor body of `get_competitor_content_for_capability`
(competitor_agent.py lines 489-577): fetch the homepage, discover help
URLs, ask the oracle for probable URLs (its failure or a falsy result is
`guess = none`), merge and dedup the candidates, scrape them, and fall back
to the homepage content (strictly longer than 200 characters) when the
scrape produced nothing.  Every `_fetch_page` call site is its own network
call, so each receives its own function: `fetchMain` for the initial
homepage fetch (line 495), `fetchCand` for the candidate URLs inside the
scrape loop (line 422, each distinct URL fetched once), and `refetch` for
the scraper's homepage re-fetch (line 448).  `linksOf` is the external
parser's anchor list for given markup. -/
def processCompetitor (fetchMain fetchCand refetch : String → String)
    (extractF : String → String → ExtractOut) (linksOf : String → List Link)
    (guess : Option Guess) (comp : Competitor) (capability : CapabilityIn) :
    Option Entry :=
  let main_html := fetchMain comp.url
  let main_content := if main_html ≠ "" then extractF main_html comp.url
    else ⟨"", [], ""⟩
  let fallback_content := main_content.content
  let fallback_headings := main_content.headings
  let discovered := if main_html ≠ "" then discoverHelpUrls comp.url (linksOf main_html)
    else []
  let capability_name := capability.name.getD "Unknown"
  let fallbackEntry : Option Entry :=
    if fallback_content ≠ "" ∧ 200 < pyLen fallback_content then
      some { competitor_name := comp.name, competitor_url := comp.url
             capability_name := capability_name
             competitor_feature_name := capability_name
             urls_scraped := [comp.url]
             content := pyTake fallback_content 6000
             headings := fallback_headings.take 20
             terminology_hints := []
             pages_scraped := 1 }
    else none
  match guess with
  | none => fallbackEntry
  | some g =>
    let likely := g.likely_feature_name.getD capability_name
    let unique_urls := uniqueUrls (g.probable_urls ++ discovered)
    let sr := scrapeCapabilityUrls fetchCand refetch extractF comp.name comp.url
      unique_urls likely
    if sr.content_extracted ≠ "" then
      some { competitor_name := comp.name, competitor_url := comp.url
             capability_name := capability_name
             competitor_feature_name := likely
             urls_scraped := sr.urls_successful
             content := pyTake sr.content_extracted 8000
             headings := sr.headings.take 30
             terminology_hints := g.terminology_hints
             pages_scraped := sr.urls_successful.length }
    else fallbackEntry

/-! ## C5: behaviour of the candidate-URL loop -/

/-- The exact success condition of one loop iteration: non-empty markup
longer than 500 characters whose extracted body is non-empty and longer
than 200 characters. -/
def urlSucceeds (fetch : String → String) (extractF : String → String → ExtractOut)
    (u : String) : Bool :=
  decide (fetch u ≠ "" ∧ 500 < pyLen (fetch u)) &&
  decide ((extractF (fetch u) u).content ≠ "" ∧
    200 < pyLen ((extractF (fetch u) u).content))

/-- The stored contribution of one successful URL: the URL-prefix banner
followed by the body capped at 4,000 characters. -/
def urlContribution (fetch : String → String)
    (extractF : String → String → ExtractOut) (u : String) : String :=
  "\n\n=== FROM " ++ u ++ " ===\n" ++ pyTake (extractF (fetch u) u).content 4000

/-- Concatenation of a list of strings. -/
def concatStrings : List String → String
  | [] => ""
  | s :: rest => s ++ concatStrings rest

theorem scrapeStep_foldl_spec (fetch : String → String)
    (extractF : String → String → ExtractOut) :
    ∀ (l : List String) (acc : ScrapeAcc),
      (l.foldl (scrapeStep fetch extractF) acc).urls_tried.map UrlTried.url =
        acc.urls_tried.map UrlTried.url ++ l ∧
      (l.foldl (scrapeStep fetch extractF) acc).urls_successful =
        acc.urls_successful ++ l.filter (urlSucceeds fetch extractF) ∧
      (l.foldl (scrapeStep fetch extractF) acc).content_extracted =
        acc.content_extracted ++
          concatStrings ((l.filter (urlSucceeds fetch extractF)).map
            (urlContribution fetch extractF)) := by
  intro l
  induction l with
  | nil => intro acc; simp [concatStrings]
  | cons u us ih =>
    intro acc
    by_cases h1 : fetch u ≠ "" ∧ 500 < pyLen (fetch u)
    · by_cases h2 : (extractF (fetch u) u).content ≠ "" ∧
          200 < pyLen ((extractF (fetch u) u).content)
      · have hstep : scrapeStep fetch extractF acc u =
            { acc with
              urls_tried := acc.urls_tried ++ [⟨u, "success"⟩]
              urls_successful := acc.urls_successful ++ [u]
              content_extracted := acc.content_extracted ++
                "\n\n=== FROM " ++ u ++ " ===\n" ++
                  pyTake (extractF (fetch u) u).content 4000
              headings := acc.headings ++ (extractF (fetch u) u).headings } := by
          simp [scrapeStep, h1, h2]
        have hsucc : urlSucceeds fetch extractF u = true := by
          simp [urlSucceeds, h1, h2]
        rcases ih (scrapeStep fetch extractF acc u) with ⟨ha, hb, hc⟩
        rw [List.foldl_cons] at *
        refine ⟨?_, ?_, ?_⟩
        · rw [ha, hstep]
          simp
        · rw [hb, hstep, List.filter_cons, hsucc]
          simp
        · rw [hc, hstep, List.filter_cons, hsucc]
          simp only [List.map_cons, concatStrings, urlContribution]
          rw [← String.append_assoc, ← String.append_assoc,
            ← String.append_assoc, ← String.append_assoc]
      · have hstep : scrapeStep fetch extractF acc u =
            { acc with urls_tried := acc.urls_tried ++ [⟨u, "no_content"⟩] } := by
          simp [scrapeStep, h1, h2]
        have hsucc : urlSucceeds fetch extractF u = false := by
          simp only [urlSucceeds, Bool.and_eq_false_iff, decide_eq_false_iff_not]
          right
          exact h2
        rcases ih (scrapeStep fetch extractF acc u) with ⟨ha, hb, hc⟩
        rw [List.foldl_cons] at *
        refine ⟨?_, ?_, ?_⟩
        · rw [ha, hstep]; simp
        · rw [hb, hstep, List.filter_cons, hsucc]; simp
        · rw [hc, hstep, List.filter_cons, hsucc]; simp
    · have hstep : scrapeStep fetch extractF acc u =
          { acc with urls_tried := acc.urls_tried ++ [⟨u, "empty"⟩] } := by
        simp [scrapeStep, h1]
      have hsucc : urlSucceeds fetch extractF u = false := by
        simp only [urlSucceeds, Bool.and_eq_false_iff, decide_eq_false_iff_not]
        left
        exact h1
      rcases ih (scrapeStep fetch extractF acc u) with ⟨ha, hb, hc⟩
      rw [List.foldl_cons] at *
      refine ⟨?_, ?_, ?_⟩
      · rw [ha, hstep]; simp
      · rw [hb, hstep, List.filter_cons, hsucc]; simp
      · rw [hc, hstep, List.filter_cons, hsucc]; simp

theorem pyLen_pyTake_le (s : String) (n : Nat) : pyLen (pyTake s n) ≤ n := by
  simp [pyLen, pyTake, List.length_take_le]

theorem pyTake_ne_empty (s : String) (n : Nat) (hs : s ≠ "") (hn : 0 < n) :
    pyTake s n ≠ "" := by
  intro h
  apply hs
  have hd : (pyTake s n).data = [] := congrArg String.data h
  simp only [pyTake] at hd
  rcases List.take_eq_nil_iff.mp hd with h' | h'
  · omega
  · exact String.ext (by simpa using h')

/-- C5 (amended): the loop attempts exactly the first five candidate URLs
in order (never stopping early, regardless of successes); a URL succeeds
exactly when its fetched markup is non-empty and longer than 500 characters
and its extracted body is longer than 200 characters; the loop's content is
the concatenation, over the successful URLs in order, of the URL-prefixed
body capped at 4,000 characters; and the content stored in the competitor
entry is capped at 8,000 characters. -/
theorem c5_scrape_loop (fetch : String → String)
    (extractF : String → String → ExtractOut) (cn fn : String)
    (urls : List String) :
    (scrapeLoop fetch extractF cn fn urls).urls_tried.map UrlTried.url =
      urls.take 5 ∧
    (scrapeLoop fetch extractF cn fn urls).urls_successful =
      (urls.take 5).filter (urlSucceeds fetch extractF) ∧
    (urlSucceeds fetch extractF = fun u =>
      decide (fetch u ≠ "" ∧ 500 < pyLen (fetch u)) &&
      decide ((extractF (fetch u) u).content ≠ "" ∧
        200 < pyLen ((extractF (fetch u) u).content))) ∧
    (scrapeLoop fetch extractF cn fn urls).content_extracted =
      concatStrings (((urls.take 5).filter (urlSucceeds fetch extractF)).map
        (urlContribution fetch extractF)) ∧
    (∀ (fetchMain refetch : String → String) (linksOf : String → List Link)
      (guess : Option Guess) (comp : Competitor) (cap : CapabilityIn) (e : Entry),
      processCompetitor fetchMain fetch refetch extractF linksOf guess comp cap =
        some e →
      pyLen e.content ≤ 8000) := by
  rcases scrapeStep_foldl_spec fetch extractF (urls.take 5)
    { competitor_name := cn, feature_name := fn, urls_tried := []
      urls_successful := [], content_extracted := "", headings := [] } with
    ⟨ha, hb, hc⟩
  refine ⟨by simpa [scrapeLoop] using ha, by simpa [scrapeLoop] using hb, rfl,
    by simpa [scrapeLoop] using hc, ?_⟩
  intro fetchMain refetch linksOf guess comp cap e he
  unfold processCompetitor at he
  cases guess with
  | none =>
    simp only at he
    by_cases hc1 : (if fetchMain comp.url ≠ "" then
        extractF (fetchMain comp.url) comp.url
        else ⟨"", [], ""⟩).content ≠ "" ∧
        200 < pyLen (if fetchMain comp.url ≠ "" then
          extractF (fetchMain comp.url) comp.url
          else ⟨"", [], ""⟩).content
    · rw [if_pos hc1] at he
      cases he
      exact le_trans (pyLen_pyTake_le _ 6000) (by omega)
    · rw [if_neg hc1] at he
      cases he
  | some g =>
    simp only at he
    by_cases hc1 : (scrapeCapabilityUrls fetch refetch extractF comp.name comp.url
        (uniqueUrls (g.probable_urls ++
          (if fetchMain comp.url ≠ "" then
            discoverHelpUrls comp.url (linksOf (fetchMain comp.url)) else [])))
        (g.likely_feature_name.getD (cap.name.getD "Unknown"))).content_extracted ≠ ""
    · rw [if_pos hc1] at he
      cases he
      exact pyLen_pyTake_le _ 8000
    · rw [if_neg hc1] at he
      by_cases hc2 : (if fetchMain comp.url ≠ "" then
          extractF (fetchMain comp.url) comp.url
          else ⟨"", [], ""⟩).content ≠ "" ∧
          200 < pyLen (if fetchMain comp.url ≠ "" then
            extractF (fetchMain comp.url) comp.url
            else ⟨"", [], ""⟩).content
      · rw [if_pos hc2] at he
        cases he
        exact le_trans (pyLen_pyTake_le _ 6000) (by omega)
      · rw [if_neg hc2] at he
        cases he

/-- A fetcher returning one-character markup for every URL: non-empty but
not longer than 500 characters. -/
def shortHtmlFetch : String → String := fun _ => "x"

/-- An extractor returning a 201-character body for every page. -/
def bigBodyExtract : String → String → ExtractOut :=
  fun _ _ => ⟨"", [], ⟨List.replicate 201 'b'⟩⟩

/-- Counterexample to C5 as stated: the claim says a URL succeeds exactly
when its extracted body exceeds 200 characters, but a URL whose markup is
only one character long fails even though its extracted body has 201
characters — the loop also requires markup longer than 500 characters. -/
theorem c5_counterexample_short_markup :
    ¬ (("u" ∈ (scrapeLoop shortHtmlFetch bigBodyExtract "Typeform" "Feature"
        ["u"]).urls_successful) ↔
      200 < pyLen ((bigBodyExtract (shortHtmlFetch "u") "u").content)) := by
  decide

/-- A default entry used to name the payload of a known-`some` result. -/
def defaultEntry : Entry :=
  ⟨"", "", "", "", [], "", [], [], 0⟩

/-- A fetcher serving 600-character markup for the Typeform homepage only. -/
def bigHomepageFetch : String → String :=
  fun u => if u = "https://www.typeform.com/" then ⟨List.replicate 600 'h'⟩ else ""

/-- An extractor returning a 300-character body for every page. -/
def mediumBodyExtract : String → String → ExtractOut :=
  fun _ _ => ⟨"T", ["H1"], ⟨List.replicate 300 'c'⟩⟩

/-- Witness for the amended C5 at concrete inputs: the homepage URL (600
characters of markup, 300 of body) succeeds, a one-character-markup URL is
attempted but fails, and the stored competitor entry respects the 8,000
character cap. -/
theorem c5_scrape_loop_witness :
    (scrapeLoop bigHomepageFetch mediumBodyExtract "Typeform" "Feature"
      ["u", "https://www.typeform.com/"]).urls_tried.map UrlTried.url =
      ["u", "https://www.typeform.com/"] ∧
    (scrapeLoop bigHomepageFetch mediumBodyExtract "Typeform" "Feature"
      ["u", "https://www.typeform.com/"]).urls_successful =
      ["https://www.typeform.com/"] ∧
    pyLen ((processCompetitor bigHomepageFetch bigHomepageFetch bigHomepageFetch
      mediumBodyExtract (fun _ => [])
      (some ⟨some "Feature", ["https://www.typeform.com/"], []⟩)
      ⟨"Typeform", "https://www.typeform.com/"⟩ ⟨some "Validation"⟩).getD
        defaultEntry).content ≤ 8000 :=
  have h := c5_scrape_loop bigHomepageFetch mediumBodyExtract "Typeform" "Feature"
    ["u", "https://www.typeform.com/"]
  ⟨by rw [h.1]; decide,
   by rw [h.2.1]; decide,
   h.2.2.2.2 bigHomepageFetch bigHomepageFetch (fun _ => [])
     (some ⟨some "Feature", ["https://www.typeform.com/"], []⟩)
     ⟨"Typeform", "https://www.typeform.com/"⟩ ⟨some "Validation"⟩
     ((processCompetitor bigHomepageFetch bigHomepageFetch bigHomepageFetch
       mediumBodyExtract (fun _ => [])
       (some ⟨some "Feature", ["https://www.typeform.com/"], []⟩)
       ⟨"Typeform", "https://www.typeform.com/"⟩ ⟨some "Validation"⟩).getD
         defaultEntry) (by rfl)⟩

/-! ## C6: the homepage fallbacks -/

theorem ne_empty_of_pyLen_gt (s : String) (n : Nat) (h : n < pyLen s) : s ≠ "" := by
  intro he
  rw [he] at h
  simp [pyLen] at h

/-- With zero successful candidate URLs, the loop collected no content. -/
theorem scrapeLoop_empty_content (fetch : String → String)
    (extractF : String → String → ExtractOut) (cn fn : String)
    (urls : List String)
    (hzero : (scrapeLoop fetch extractF cn fn urls).urls_successful = []) :
    (scrapeLoop fetch extractF cn fn urls).content_extracted = "" := by
  rcases scrapeStep_foldl_spec fetch extractF (urls.take 5)
    { competitor_name := cn, feature_name := fn, urls_tried := []
      urls_successful := [], content_extracted := "", headings := [] } with
    ⟨_, hb, hc⟩
  have hfilter : (urls.take 5).filter (urlSucceeds fetch extractF) = [] := by
    have := hb.symm.trans hzero
    simpa [scrapeLoop] using this
  have := hc
  rw [hfilter] at this
  simpa [scrapeLoop, concatStrings] using this

/-- C6 (amended): when zero of a competitor's attempted capability URLs
succeed, there are two cascaded homepage fallbacks.  First the scraper
re-fetches the homepage — an independent network call (`refetch`) — and
uses that re-fetch's extracted body whenever it is non-empty; the
200-character minimum is NOT applied on this path.  Only when the scrape,
this re-fetch included, produced no content (and likewise when the oracle
URL-guess step itself failed) does the competitor-level fallback use the
homepage content fetched earlier, and only that path requires the body to
exceed 200 characters.  On every fallback path the produced entry has
`pages_scraped = 1` and `urls_scraped = [homepage]`. -/
theorem c6_homepage_fallback (fetchMain fetchCand refetch : String → String)
    (extractF : String → String → ExtractOut) (linksOf : String → List Link)
    (comp : Competitor) (cap : CapabilityIn) :
    let main_html := fetchMain comp.url
    let fb := (if main_html ≠ "" then extractF main_html comp.url
      else ⟨"", [], ""⟩).content
    let reBody := (if refetch comp.url ≠ "" then
      extractF (refetch comp.url) comp.url else ⟨"", [], ""⟩).content
    let discovered := if main_html ≠ "" then
      discoverHelpUrls comp.url (linksOf main_html) else []
    ((∀ e, processCompetitor fetchMain fetchCand refetch extractF linksOf none
        comp cap = some e →
        e.pages_scraped = 1 ∧ e.content = pyTake fb 6000 ∧
        e.urls_scraped = [comp.url]) ∧
      ((processCompetitor fetchMain fetchCand refetch extractF linksOf none
        comp cap).isSome ↔ 200 < pyLen fb)) ∧
    (∀ g : Guess,
      (scrapeLoop fetchCand extractF comp.name
        (g.likely_feature_name.getD (cap.name.getD "Unknown"))
        (uniqueUrls (g.probable_urls ++ discovered))).urls_successful = [] →
      (∀ e, processCompetitor fetchMain fetchCand refetch extractF linksOf
        (some g) comp cap = some e →
        e.pages_scraped = 1 ∧ e.urls_scraped = [comp.url] ∧
        e.content = (if reBody ≠ "" then pyTake (pyTake reBody 5000) 8000
          else pyTake fb 6000)) ∧
      ((processCompetitor fetchMain fetchCand refetch extractF linksOf (some g)
        comp cap).isSome ↔ (reBody ≠ "" ∨ 200 < pyLen fb))) := by
  intro main_html fb reBody discovered
  constructor
  · have hnone : processCompetitor fetchMain fetchCand refetch extractF linksOf
        none comp cap =
        (if fb ≠ "" ∧ 200 < pyLen fb then
          some { competitor_name := comp.name, competitor_url := comp.url
                 capability_name := cap.name.getD "Unknown"
                 competitor_feature_name := cap.name.getD "Unknown"
                 urls_scraped := [comp.url]
                 content := pyTake fb 6000
                 headings := (if main_html ≠ "" then extractF main_html comp.url
                   else ⟨"", [], ""⟩).headings.take 20
                 terminology_hints := []
                 pages_scraped := 1 }
        else none) := rfl
    constructor
    · intro e he
      rw [hnone] at he
      by_cases hcond : fb ≠ "" ∧ 200 < pyLen fb
      · rw [if_pos hcond] at he
        cases he
        exact ⟨rfl, rfl, rfl⟩
      · rw [if_neg hcond] at he
        cases he
    · rw [hnone]
      by_cases hcond : fb ≠ "" ∧ 200 < pyLen fb
      · rw [if_pos hcond]
        simp [hcond.2]
      · rw [if_neg hcond]
        simp only [Option.isSome_none, Bool.false_eq_true, false_iff]
        intro hlen
        exact hcond ⟨ne_empty_of_pyLen_gt fb 200 hlen, hlen⟩
  · intro g hzero
    have hcontent := scrapeLoop_empty_content fetchCand extractF comp.name
      (g.likely_feature_name.getD (cap.name.getD "Unknown"))
      (uniqueUrls (g.probable_urls ++ discovered)) hzero
    by_cases hre : refetch comp.url ≠ ""
    · by_cases hrecd : (extractF (refetch comp.url) comp.url).content ≠ ""
      · have hreB : reBody = (extractF (refetch comp.url) comp.url).content := by
          simp only [reBody, if_pos hre]
        have hsr : scrapeCapabilityUrls fetchCand refetch extractF comp.name
            comp.url (uniqueUrls (g.probable_urls ++ discovered))
            (g.likely_feature_name.getD (cap.name.getD "Unknown")) =
            { scrapeLoop fetchCand extractF comp.name
                (g.likely_feature_name.getD (cap.name.getD "Unknown"))
                (uniqueUrls (g.probable_urls ++ discovered)) with
              urls_successful := [comp.url]
              content_extracted :=
                pyTake (extractF (refetch comp.url) comp.url).content 5000
              headings := (extractF (refetch comp.url) comp.url).headings } := by
          unfold scrapeCapabilityUrls
          rw [if_pos hzero, if_pos hre, if_pos hrecd, hzero]
          simp
        have hne : pyTake (extractF (refetch comp.url) comp.url).content 5000 ≠ "" :=
          pyTake_ne_empty _ 5000 hrecd (by omega)
        have hproc : processCompetitor fetchMain fetchCand refetch extractF
            linksOf (some g) comp cap =
            some { competitor_name := comp.name, competitor_url := comp.url
                   capability_name := cap.name.getD "Unknown"
                   competitor_feature_name :=
                     g.likely_feature_name.getD (cap.name.getD "Unknown")
                   urls_scraped := [comp.url]
                   content := pyTake
                     (pyTake (extractF (refetch comp.url) comp.url).content 5000)
                     8000
                   headings :=
                     ((extractF (refetch comp.url) comp.url).headings).take 30
                   terminology_hints := g.terminology_hints
                   pages_scraped := 1 } := by
          unfold processCompetitor
          simp only [hsr, if_pos hne]
          rfl
        refine ⟨?_, ?_⟩
        · intro e he
          rw [hproc] at he
          cases he
          refine ⟨rfl, rfl, ?_⟩
          rw [hreB, if_pos hrecd]
        · rw [hproc, hreB]
          simp [hrecd]
      · have hreB : reBody = "" := by
          simp only [reBody, if_pos hre]
          simpa using hrecd
        have hsr : scrapeCapabilityUrls fetchCand refetch extractF comp.name
            comp.url (uniqueUrls (g.probable_urls ++ discovered))
            (g.likely_feature_name.getD (cap.name.getD "Unknown")) =
            scrapeLoop fetchCand extractF comp.name
              (g.likely_feature_name.getD (cap.name.getD "Unknown"))
              (uniqueUrls (g.probable_urls ++ discovered)) := by
          unfold scrapeCapabilityUrls
          rw [if_pos hzero, if_pos hre, if_neg hrecd]
        have hproc : processCompetitor fetchMain fetchCand refetch extractF
            linksOf (some g) comp cap =
            (if fb ≠ "" ∧ 200 < pyLen fb then
              some { competitor_name := comp.name, competitor_url := comp.url
                     capability_name := cap.name.getD "Unknown"
                     competitor_feature_name := cap.name.getD "Unknown"
                     urls_scraped := [comp.url]
                     content := pyTake fb 6000
                     headings := (if main_html ≠ "" then
                       extractF main_html comp.url
                       else ⟨"", [], ""⟩).headings.take 20
                     terminology_hints := []
                     pages_scraped := 1 }
            else none) := by
          unfold processCompetitor
          simp only [hsr, hcontent, ne_eq, not_true_eq_false, if_false,
            reduceIte]
        refine ⟨?_, ?_⟩
        · intro e he
          rw [hproc] at he
          by_cases hcond : fb ≠ "" ∧ 200 < pyLen fb
          · rw [if_pos hcond] at he
            cases he
            refine ⟨rfl, rfl, ?_⟩
            rw [hreB]
            simp
          · rw [if_neg hcond] at he
            cases he
        · rw [hproc, hreB]
          by_cases hcond : fb ≠ "" ∧ 200 < pyLen fb
          · rw [if_pos hcond]
            simp [hcond.2]
          · rw [if_neg hcond]
            simp only [Option.isSome_none, Bool.false_eq_true, false_iff]
            intro hor
            rcases hor with h | hlen
            · exact h rfl
            · exact hcond ⟨ne_empty_of_pyLen_gt fb 200 hlen, hlen⟩
    · have hreB : reBody = "" := by
        simp only [reBody, if_neg hre]
      have hsr : scrapeCapabilityUrls fetchCand refetch extractF comp.name
          comp.url (uniqueUrls (g.probable_urls ++ discovered))
          (g.likely_feature_name.getD (cap.name.getD "Unknown")) =
          scrapeLoop fetchCand extractF comp.name
            (g.likely_feature_name.getD (cap.name.getD "Unknown"))
            (uniqueUrls (g.probable_urls ++ discovered)) := by
        unfold scrapeCapabilityUrls
        rw [if_pos hzero, if_neg hre]
      have hproc : processCompetitor fetchMain fetchCand refetch extractF
          linksOf (some g) comp cap =
          (if fb ≠ "" ∧ 200 < pyLen fb then
            some { competitor_name := comp.name, competitor_url := comp.url
                   capability_name := cap.name.getD "Unknown"
                   competitor_feature_name := cap.name.getD "Unknown"
                   urls_scraped := [comp.url]
                   content := pyTake fb 6000
                   headings := (if main_html ≠ "" then
                     extractF main_html comp.url
                     else ⟨"", [], ""⟩).headings.take 20
                   terminology_hints := []
                   pages_scraped := 1 }
          else none) := by
        unfold processCompetitor
        simp only [hsr, hcontent, ne_eq, not_true_eq_false, if_false, reduceIte]
      refine ⟨?_, ?_⟩
      · intro e he
        rw [hproc] at he
        by_cases hcond : fb ≠ "" ∧ 200 < pyLen fb
        · rw [if_pos hcond] at he
          cases he
          refine ⟨rfl, rfl, ?_⟩
          rw [hreB]
          simp
        · rw [if_neg hcond] at he
          cases he
      · rw [hproc, hreB]
        by_cases hcond : fb ≠ "" ∧ 200 < pyLen fb
        · rw [if_pos hcond]
          simp [hcond.2]
        · rw [if_neg hcond]
          simp only [Option.isSome_none, Bool.false_eq_true, false_iff]
          intro hor
          rcases hor with h | hlen
          · exact h rfl
          · exact hcond ⟨ne_empty_of_pyLen_gt fb 200 hlen, hlen⟩

/-- A fetcher serving one-character markup for the Typeform homepage and
failing everywhere else. -/
def c6Fetch : String → String :=
  fun u => if u = "https://www.typeform.com/" then "h" else ""

/-- An extractor returning a 150-character body — non-empty but not above
the 200-character minimum. -/
def c6Extract : String → String → ExtractOut :=
  fun _ _ => ⟨"", ["Hd"], ⟨List.replicate 150 'c'⟩⟩

/-- A guess with a single capability URL that fails to fetch. -/
def c6Guess : Guess := ⟨some "Feature", ["https://www.typeform.com/u1"], []⟩

/-- Counterexample to C6 as stated: zero candidate URLs succeed, the
homepage body (both at the initial fetch and at the scraper's re-fetch)
has only 150 characters (≤ 200), yet the competitor entry is produced from
it — the scraper-level homepage fallback applies no 200-character
minimum. -/
theorem c6_counterexample_no_threshold :
    (scrapeLoop c6Fetch c6Extract "Typeform" "Feature"
      (uniqueUrls (c6Guess.probable_urls ++
        (if c6Fetch "https://www.typeform.com/" ≠ "" then
          discoverHelpUrls "https://www.typeform.com/"
            ((fun _ => ([] : List Link)) (c6Fetch "https://www.typeform.com/"))
        else [])))).urls_successful = [] ∧
    pyLen ((processCompetitor c6Fetch c6Fetch c6Fetch c6Extract (fun _ => [])
      (some c6Guess)
      ⟨"Typeform", "https://www.typeform.com/"⟩ ⟨some "Validation"⟩).getD
        defaultEntry).content = 150 ∧
    (processCompetitor c6Fetch c6Fetch c6Fetch c6Extract (fun _ => [])
      (some c6Guess)
      ⟨"Typeform", "https://www.typeform.com/"⟩
      ⟨some "Validation"⟩).isSome = true := by
  decide

/-- Witness for the amended C6 at the concrete inputs of the
counterexample: the fallback fires because the re-fetched homepage body is
non-empty (or the earlier body exceeds 200 characters), and the produced
entry records one scraped page, the homepage. -/
theorem c6_homepage_fallback_witness :
    ((processCompetitor c6Fetch c6Fetch c6Fetch c6Extract (fun _ => [])
        (some c6Guess)
        ⟨"Typeform", "https://www.typeform.com/"⟩ ⟨some "Validation"⟩).isSome ↔
      ((if c6Fetch "https://www.typeform.com/" ≠ "" then
        c6Extract (c6Fetch "https://www.typeform.com/")
          "https://www.typeform.com/"
      else ⟨"", [], ""⟩).content ≠ "" ∨
      200 < pyLen (if c6Fetch "https://www.typeform.com/" ≠ "" then
        c6Extract (c6Fetch "https://www.typeform.com/")
          "https://www.typeform.com/"
      else ⟨"", [], ""⟩).content)) ∧
    ((processCompetitor c6Fetch c6Fetch c6Fetch c6Extract (fun _ => [])
      (some c6Guess)
      ⟨"Typeform", "https://www.typeform.com/"⟩ ⟨some "Validation"⟩).getD
        defaultEntry).pages_scraped = 1 ∧
    ((processCompetitor c6Fetch c6Fetch c6Fetch c6Extract (fun _ => [])
      (some c6Guess)
      ⟨"Typeform", "https://www.typeform.com/"⟩ ⟨some "Validation"⟩).getD
        defaultEntry).urls_scraped = ["https://www.typeform.com/"] :=
  have h2 := (c6_homepage_fallback c6Fetch c6Fetch c6Fetch c6Extract
    (fun _ => []) ⟨"Typeform", "https://www.typeform.com/"⟩
    ⟨some "Validation"⟩).2 c6Guess (by decide)
  have h3 := h2.1 ((processCompetitor c6Fetch c6Fetch c6Fetch c6Extract
    (fun _ => []) (some c6Guess) ⟨"Typeform", "https://www.typeform.com/"⟩
    ⟨some "Validation"⟩).getD defaultEntry) (by rfl)
  ⟨h2.2, h3.1, h3.2.1⟩

/-! ## C7: capability identification and its failure propagation
(llm_client.py lines 96-177, competitive_analysis_agent.py lines 37-131) -/

/-- The opening brace character. -/
def openBrace : Char := Char.ofNat 123

/-- The closing brace character. -/
def closeBrace : Char := Char.ofNat 125

/-- Model of Python `s.find(c)`: index of the first occurrence, `-1` when
absent. -/
def pyFindAux (c : Char) : List Char → Nat → Int
  | [], _ => -1
  | x :: xs, i => if x = c then (i : Int) else pyFindAux c xs (i + 1)

/-- Python `s.find(c)`. -/
def pyFind (s : String) (c : Char) : Int := pyFindAux c s.data 0

/-- Python `s.rfind(c)`: index of the last occurrence, `-1` when absent. -/
def pyRfind (s : String) (c : Char) : Int :=
  let j := pyFindAux c s.data.reverse 0
  if j = -1 then -1 else (s.data.length : Int) - 1 - j

/-- Python `s[a:b]` for the non-negative indices used by the parser. -/
def pySlice (s : String) (a b : Int) : String :=
  ⟨(s.data.drop a.toNat).take (b.toNat - a.toNat)⟩

/-- The parsed `capability` object of the oracle's JSON response. -/
structure CapObj where
  name : Option String
  description : Option String
  category : Option String
  competitor_search_terms : List String
  common_url_paths : List String
deriving Repr, DecidableEq

/-- A parsed JSON document as far as `identify_article_capability` reads it:
the value under `"capability"`, `none` when the key is missing or its
value is the falsy empty object. -/
structure JDoc where
  capability : Option CapObj
deriving Repr, DecidableEq

/-- The post-oracle logic of `identify_article_capability` (llm_client.py
lines 152-177): take the substring from the first `\x7b` to the last
`\x7d`; fail when no such span exists; parse it (`jparse` stands for
`json.loads`, `none` modelling a raised decode error); fail when the
parsed object lacks a capability with a non-empty (truthy) name.  There is
no fallback: every failure path raises. -/
def parseCapability (jparse : String → Option JDoc) (response : String) :
    Except String CapObj :=
  let json_start := pyFind response openBrace
  let json_end := pyRfind response closeBrace + 1
  if json_start = -1 ∨ json_end ≤ json_start then
    .error "Failed to identify article capability - invalid JSON response"
  else
    match jparse (pySlice response json_start json_end) with
    | none => .error "json.loads: invalid JSON"
    | some doc =>
      match doc.capability with
      | none => .error "Failed to identify article capability"
      | some c =>
        match c.name with
        | none => .error "Failed to identify article capability"
        | some n =>
          if n = "" then .error "Failed to identify article capability"
          else .ok c

/-- The full analysis result assembled by
`CompetitiveAnalysisAgent.analyze_competitor_keywords`. -/
structure AnalysisOut where
  capability : CapObj
  competitors_scraped : Nat
  data : KeywordData
deriving Repr, DecidableEq

/-- `CompetitiveAnalysisAgent.analyze_competitor_keywords`
(competitive_analysis_agent.py lines 37-131): resolve the configured
competitors, then identify the capability, then scrape competitor content
for it, then map keywords.  `identifyRes` is the outcome of the capability
identification; `scrapeF` stands for
`get_competitor_content_for_capability` and `mapF` for
`get_competitor_keywords`; every failure propagates unchanged. -/
def analyzeCompetitorKeywords (product : String)
    (identifyRes : Except String CapObj)
    (scrapeF : CapObj → Except String (List CompContent))
    (mapF : CapObj → List CompContent → Except String KeywordData) :
    Except String AnalysisOut :=
  match lookupProduct product with
  | none => .error ("Unknown product type: " ++ product)
  | some _ =>
    match identifyRes with
    | .error e => .error e
    | .ok cap =>
      match scrapeF cap with
      | .error e => .error e
      | .ok cc =>
        match mapF cap cc with
        | .error e => .error e
        | .ok kd => .ok ⟨cap, cc.length, kd⟩

/-- C7: capability identification fails when the response holds no
brace-delimited span, or when the parsed object lacks a capability with a
non-empty name (the `\x7b"capability": \x7b\x7d\x7d` scenario); a success
always carries a non-empty name; and when identification fails, the
pipeline reports exactly that error and its result is independent of the
scraping and mapping stages — no competitor scraping is attempted, with no
fallback. -/
theorem c7_capability_failure_no_scraping :
    (∀ (jparse : String → Option JDoc) (response : String),
      (pyFind response openBrace = -1 ∨
        pyRfind response closeBrace + 1 ≤ pyFind response openBrace) →
      ∃ msg, parseCapability jparse response = .error msg) ∧
    (∀ (jparse : String → Option JDoc) (response : String) (doc : JDoc),
      jparse (pySlice response (pyFind response openBrace)
        (pyRfind response closeBrace + 1)) = some doc →
      (doc.capability = none ∨
        ∃ c, doc.capability = some c ∧ (c.name = none ∨ c.name = some "")) →
      ∃ msg, parseCapability jparse response = .error msg) ∧
    (∀ (jparse : String → Option JDoc) (response : String) (c : CapObj),
      parseCapability jparse response = .ok c →
      ∃ n, c.name = some n ∧ n ≠ "") ∧
    (∀ (product : String) (e : String)
      (scrapeF scrapeF2 : CapObj → Except String (List CompContent))
      (mapF mapF2 : CapObj → List CompContent → Except String KeywordData),
      lookupProduct product ≠ none →
      analyzeCompetitorKeywords product (.error e) scrapeF mapF = .error e ∧
      analyzeCompetitorKeywords product (.error e) scrapeF mapF =
        analyzeCompetitorKeywords product (.error e) scrapeF2 mapF2) := by
  refine ⟨?_, ?_, ?_, ?_⟩
  · intro jparse response h
    refine ⟨"Failed to identify article capability - invalid JSON response", ?_⟩
    unfold parseCapability
    rw [if_pos h]
  · intro jparse response doc hdoc hbad
    by_cases hspan : pyFind response openBrace = -1 ∨
        pyRfind response closeBrace + 1 ≤ pyFind response openBrace
    · exact ⟨_, by unfold parseCapability; rw [if_pos hspan]⟩
    · have hpc : parseCapability jparse response =
          (match doc.capability with
            | none => Except.error "Failed to identify article capability"
            | some c =>
              match c.name with
              | none => Except.error "Failed to identify article capability"
              | some n =>
                if n = "" then
                  Except.error "Failed to identify article capability"
                else Except.ok c) := by
        unfold parseCapability
        rw [if_neg hspan, hdoc]
      rw [hpc]
      rcases hbad with hnone | ⟨c, hc, hname⟩
      · rw [hnone]
        exact ⟨_, rfl⟩
      · rw [hc]
        show ∃ msg, (match c.name with
          | none => Except.error "Failed to identify article capability"
          | some n =>
            if n = "" then Except.error "Failed to identify article capability"
            else Except.ok c) = Except.error msg
        rcases hname with h | h
        · rw [h]
          exact ⟨_, rfl⟩
        · rw [h]
          exact ⟨"Failed to identify article capability", by rfl⟩
  · intro jparse response c hok
    by_cases hspan : pyFind response openBrace = -1 ∨
        pyRfind response closeBrace + 1 ≤ pyFind response openBrace
    · rw [show parseCapability jparse response = .error
          "Failed to identify article capability - invalid JSON response" by
        unfold parseCapability; rw [if_pos hspan]] at hok
      exact absurd hok (by simp)
    · cases hdoc : jparse (pySlice response (pyFind response openBrace)
          (pyRfind response closeBrace + 1)) with
      | none =>
        rw [show parseCapability jparse response = .error "json.loads: invalid JSON" by
          unfold parseCapability; rw [if_neg hspan, hdoc]] at hok
        exact absurd hok (by simp)
      | some doc =>
        have hpc : parseCapability jparse response =
            (match doc.capability with
              | none => Except.error "Failed to identify article capability"
              | some c =>
                match c.name with
                | none => Except.error "Failed to identify article capability"
                | some n =>
                  if n = "" then
                    Except.error "Failed to identify article capability"
                  else Except.ok c) := by
          unfold parseCapability
          rw [if_neg hspan, hdoc]
        rw [hpc] at hok
        cases hcap : doc.capability with
        | none => rw [hcap] at hok; exact absurd hok (by simp)
        | some c' =>
          rw [hcap] at hok
          have hok2 : (match c'.name with
              | none => Except.error "Failed to identify article capability"
              | some n =>
                if n = "" then Except.error "Failed to identify article capability"
                else Except.ok c') = Except.ok c := hok
          cases hname : c'.name with
          | none => rw [hname] at hok2; exact absurd hok2 (by simp)
          | some n =>
            rw [hname] at hok2
            have hok3 : (if n = "" then
                (Except.error "Failed to identify article capability" :
                  Except String CapObj)
              else Except.ok c') = Except.ok c := hok2
            by_cases hn : n = ""
            · rw [if_pos hn] at hok3
              exact absurd hok3 (by simp)
            · rw [if_neg hn] at hok3
              simp only [Except.ok.injEq] at hok3
              subst hok3
              exact ⟨n, hname, hn⟩
  · intro product e scrapeF scrapeF2 mapF mapF2 hprod
    cases hlp : lookupProduct product with
    | none => exact absurd hlp hprod
    | some comps =>
      unfold analyzeCompetitorKeywords
      rw [hlp]
      exact ⟨rfl, rfl⟩

/-- The empty capability object of the scenario-A response. -/
def emptyCapObj : CapObj := ⟨none, none, none, [], []⟩

/-- The scenario-A oracle response `\x7b"capability": \x7b\x7d\x7d`. -/
def responseA : String := "\x7b\"capability\": \x7b\x7d\x7d"

/-- A `json.loads` model that parses exactly the scenario-A response into a
document whose capability object is empty. -/
def jparseA : String → Option JDoc :=
  fun s => if s = responseA then some ⟨some emptyCapObj⟩ else none

/-- Witness for C7 at scenario A: the `\x7b"capability": \x7b\x7d\x7d`
response makes identification fail, and the pipeline for product "Forms"
reports the identification error unchanged, unaffected by the scraping and
mapping stages. -/
theorem c7_capability_failure_no_scraping_witness :
    (∃ msg, parseCapability jparseA responseA = .error msg) ∧
    analyzeCompetitorKeywords "Forms"
      (.error "Failed to identify article capability")
      (fun _ => .ok sampleCC) (fun _ _ => .error "unused") =
      .error "Failed to identify article capability" ∧
    analyzeCompetitorKeywords "Forms"
      (.error "Failed to identify article capability")
      (fun _ => .ok sampleCC) (fun _ _ => .error "unused") =
      analyzeCompetitorKeywords "Forms"
        (.error "Failed to identify article capability")
        (fun _ => .error "scraper never called") (fun _ _ => .error "unused") :=
  ⟨c7_capability_failure_no_scraping.2.1 jparseA responseA ⟨some emptyCapObj⟩
      (by decide) (Or.inr ⟨emptyCapObj, rfl, Or.inl rfl⟩),
   (c7_capability_failure_no_scraping.2.2.2 "Forms"
      "Failed to identify article capability"
      (fun _ => .ok sampleCC) (fun _ => .error "scraper never called")
      (fun _ _ => .error "unused") (fun _ _ => .error "unused")
      (by decide)).1,
   (c7_capability_failure_no_scraping.2.2.2 "Forms"
      "Failed to identify article capability"
      (fun _ => .ok sampleCC) (fun _ => .error "scraper never called")
      (fun _ _ => .error "unused") (fun _ _ => .error "unused")
      (by decide)).2⟩

/-! ## C8: time-range validation (main.py lines 183-214, llm_client.py 73-82) -/

/-- A request to the analysis endpoint. -/
structure AnalyzeRequest where
  url : String
  product : String
  time_range : String
deriving Repr, DecidableEq

/-- The anchored pattern bases of `URL_PATTERNS` (main.py lines 24-40). -/
def URL_PATTERN_BASES : List (String × String) :=
  [("Forms",
    "https://experienceleague.adobe.com/en/docs/experience-manager-cloud-service/content/forms"),
   ("Assets",
    "https://experienceleague.adobe.com/en/docs/experience-manager-cloud-service/content/assets"),
   ("Sites",
    "https://experienceleague.adobe.com/en/docs/experience-manager-cloud-service/content/sites")]

/-- `re.match(r"^BASE(/.*)?$", url)`: the URL is the base itself, or the
base followed by `/` and a remainder in which `.` cannot match a newline —
so no newline may occur except as the final character (which `$` also
accepts). -/
def regexTailOk (rest : List Char) : Bool := ¬ rest.dropLast.contains '\n'

/-- `validate_url_for_product` (main.py lines 43-59). -/
def validateUrlForProduct (url product : String) : Bool :=
  match (URL_PATTERN_BASES.find? fun p => p.fst = product).map Prod.snd with
  | none => false
  | some base =>
    url = base ||
      ((base ++ "/").isPrefixOf url &&
        regexTailOk (url.data.drop (base.data.length + 1)))

/-- An HTTP-level outcome of the endpoint. -/
inductive ApiResult where
  | ok (data : AnalysisOut)
  | httpError (status : Nat) (detail : String)
deriving Repr, DecidableEq

/-- The `/api/analyze` endpoint (main.py lines 157-227): validate the
product, the time range and the URL in that order, each failure returning
an immediate HTTP 400; only then run the analysis pipeline (`pipeline`
stands for the whole `seo_crew.full_seo_analysis` call and response
handling, the first point at which any page fetch or oracle call can
happen). -/
def analyzeUrlEndpoint (req : AnalyzeRequest)
    (pipeline : String → String → String → ApiResult) : ApiResult :=
  if lookupProduct req.product = none then
    .httpError 400 "Invalid product. Options: ['Assets', 'Forms', 'Sites']"
  else if req.time_range ∉ (["week", "month", "year"] : List String) then
    .httpError 400 "time_range must be: week, month, or year"
  else if validateUrlForProduct req.url req.product = false then
    .httpError 400 "Invalid URL"
  else pipeline req.url req.product req.time_range

/-- C8: the three valid time ranges select the volume field names
`weekly_volume`, `monthly_volume` and `yearly_volume`; every other value
makes `_get_volume_field_name` raise, and a request carrying it is
rejected by the endpoint with an HTTP error whose outcome is independent
of the analysis pipeline — so it fails before any network call. -/
theorem c8_invalid_time_range_fails_early :
    (volumeFieldName "week" = .ok "weekly_volume" ∧
     volumeFieldName "month" = .ok "monthly_volume" ∧
     volumeFieldName "year" = .ok "yearly_volume") ∧
    (∀ tr : String, tr ≠ "week" → tr ≠ "month" → tr ≠ "year" →
      (∃ msg, volumeFieldName tr = .error msg) ∧
      (∀ (req : AnalyzeRequest)
        (p1 p2 : String → String → String → ApiResult),
        req.time_range = tr →
        analyzeUrlEndpoint req p1 = analyzeUrlEndpoint req p2 ∧
        ∃ status detail, analyzeUrlEndpoint req p1 = .httpError status detail)) := by
  refine ⟨⟨rfl, rfl, rfl⟩, ?_⟩
  intro tr h1 h2 h3
  constructor
  · refine ⟨"Invalid time_range: " ++ tr ++ ". Must be: week, month, or year", ?_⟩
    unfold volumeFieldName
    rw [if_neg h1, if_neg h3, if_neg h2]
  · intro req p1 p2 htr
    have hmem : req.time_range ∉ (["week", "month", "year"] : List String) := by
      rw [htr]
      simp [h1, h2, h3]
    unfold analyzeUrlEndpoint
    by_cases hprod : lookupProduct req.product = none
    · rw [if_pos hprod, if_pos hprod]
      exact ⟨rfl, 400, _, rfl⟩
    · rw [if_neg hprod, if_neg hprod, if_pos hmem, if_pos hmem]
      exact ⟨rfl, 400, _, rfl⟩

/-- Witness for C8 at scenario D: `time_range = "quarter"` makes the field
lookup raise and the endpoint reject the request with the same HTTP error
under two different pipelines. -/
theorem c8_invalid_time_range_fails_early_witness :
    (∃ msg, volumeFieldName "quarter" = .error msg) ∧
    analyzeUrlEndpoint ⟨"https://example.com/a", "Forms", "quarter"⟩
        (fun _ _ _ => .httpError 0 "p1") =
      analyzeUrlEndpoint ⟨"https://example.com/a", "Forms", "quarter"⟩
        (fun _ _ _ => .httpError 1 "p2") ∧
    (∃ status detail,
      analyzeUrlEndpoint ⟨"https://example.com/a", "Forms", "quarter"⟩
        (fun _ _ _ => .httpError 0 "p1") = .httpError status detail) :=
  have h := (c8_invalid_time_range_fails_early.2 "quarter"
    (by decide) (by decide) (by decide))
  have h2 := h.2 ⟨"https://example.com/a", "Forms", "quarter"⟩
    (fun _ _ _ => .httpError 0 "p1") (fun _ _ _ => .httpError 1 "p2") rfl
  ⟨h.1, h2.1, h2.2⟩

end SeoSpec
